import Mathlib

/-!
ACME client: request executor, error mapper, link parsing, authorization fetch

A shallow embedding of the Go sources `acme.go`, `error.go` and
`authorization.go`, followed by theorems about them.

Conventions of the embedding.

* Go strings and byte slices are Lean `String`s; Go `int` and `time.Duration`
  values are `Int`s (only compared and copied, never computed with).
* The Go `error` interface is the type `GoError`: either a formatted message
  (what `fmt.Errorf` and `errors.New` build) or an `AcmeError` value.
* Everything outside the sources at hand is an oracle collected in `Env`: the
  HTTP transport, the nonce supply, the envelope signer and the JSON decoder.
  Oracles act on an external state of an arbitrary type `σ`.
* `World` threads that external state together with a trace of the calls made
  to the nonce supply and to the transport.
-/

set_option autoImplicit false

namespace Acme

/-! ## Data model -/

/-- The identifier of an authorization: a type and a value. -/
structure AcmeIdentifier where
  Type_ : String
  Value : String
deriving DecidableEq, Repr

/-- One entry of `AcmeError.SubProblems`. -/
structure SubProblem where
  Type_ : String
  Detail : String
  Identifier : AcmeIdentifier
deriving DecidableEq, Repr

/-- The problem document of `error.go`. -/
structure AcmeError where
  Status : Int
  Type_ : String
  Detail : String
  Instance : String
  SubProblems : List SubProblem
deriving DecidableEq, Repr

/-- A value of the Go interface `error`. -/
inductive GoError where
  | errorString (msg : String)
  | acme (e : AcmeError)
deriving DecidableEq, Repr

/-- Outcome of `ioutil.ReadAll(resp.Body)`. -/
inductive ReadResult where
  | ok (body : String)
  | err (msg : String)
deriving DecidableEq, Repr

/-- An outgoing `http.Request`. -/
structure Request where
  Method : String
  URL : String
  Body : Option String
  Header : List (String × String)
deriving DecidableEq, Repr

/-- The call `req.Header.Set(key, value)`. -/
def Request.setHeader (req : Request) (key value : String) : Request :=
  { req with Header := (key, value) :: req.Header.filter (fun kv => kv.1 != key) }

/-- An incoming `http.Response`; `Header` is the Go map from a canonical key to
its list of values, `Body` what reading the body stream to its end gives. -/
structure Response where
  StatusCode : Int
  Status : String
  Header : List (String × List String)
  Body : ReadResult
deriving DecidableEq, Repr

/-- The map access `resp.Header[key]`: the values stored under `key`, none when
the key is absent. -/
def Response.headerValues (resp : Response) (key : String) : List String :=
  (resp.Header.lookup key).getD []

/-- The call `resp.Header.Get(key)`: the first value stored under `key`, the
empty string when there is none. -/
def Response.headerGet (resp : Response) (key : String) : String :=
  (resp.headerValues key).headD ""

/-- Outcome of `c.httpClient.Do(req)`: a response, or an error that may come
with a response. -/
inductive DoResult where
  | ok (resp : Response)
  | fail (resp : Option Response) (msg : String)
deriving DecidableEq, Repr

/-- Outcome of `c.nonces.Nonce()`. -/
inductive NonceResult where
  | ok (nonce : String)
  | err (e : GoError)
deriving DecidableEq, Repr

/-- Outcome of `jwsEncodeJSON`. -/
inductive EncodeResult where
  | ok (data : String)
  | err (msg : String)
deriving DecidableEq, Repr

/-- A call made to one of the external collaborators, with what it returned. -/
inductive Event where
  | acquire (result : NonceResult)
  | send (req : Request) (result : DoResult)
  | push (value : String)
deriving DecidableEq, Repr

/-- The external collaborators. `σ` is their state, `π` the type of payloads,
`κ` the type of signing keys. -/
structure Env (σ π κ : Type) where
  /-- The call `httpClient.Do`. -/
  Do : Request → σ → DoResult × σ
  /-- The call `nonces.Nonce()`, given the mint URL of the nonce stack. -/
  Nonce : String → σ → NonceResult × σ
  /-- The call `nonces.push`. -/
  push : String → σ → σ
  /-- The call `jwsEncodeJSON(payload, privateKey, requestURL, keyID, nonce)`. -/
  jwsEncodeJSON : π → κ → String → String → String → σ → EncodeResult × σ
  /-- The error of `http.NewRequest(method, url, _)`, if it has one. -/
  requestError : String → String → Option String
  /-- The call `json.Unmarshal` of a body into a zero `AcmeError`. -/
  unmarshalAcmeError : String → Except String AcmeError

/-- The state threaded through the client's operations. -/
structure World (σ : Type) where
  ext : σ
  /-- The field `newNonceURL` of the client's nonce stack. -/
  newNonceURL : String
  trace : List Event

variable {σ π κ : Type}

/-! ## error.go -/

/-- The verb `%d` applied to a slice of integers. -/
def formatInts (xs : List Int) : String :=
  "[" ++ " ".intercalate (xs.map toString) ++ "]"

/-- Helper function to determine if a response contains an expected status
code, or otherwise an error object. -/
def checkError (unmarshal : String → Except String AcmeError) (resp : Response)
    (expectedStatuses : List Int) : Option GoError :=
  if expectedStatuses.any (fun statusCode => resp.StatusCode == statusCode) then
    none
  else if resp.StatusCode < 400 || resp.StatusCode >= 600 then
    some (.errorString ("acme: expected status codes: " ++ formatInts expectedStatuses
      ++ ", got: " ++ toString resp.StatusCode ++ " " ++ resp.Status))
  else
    match resp.Body with
    | .err msg => some (.errorString ("acme: error reading error body: " ++ msg))
    | .ok body =>
      match unmarshal body with
      | .error msg => some (.errorString ("acme: parsing error body: " ++ msg ++ " - " ++ body))
      | .ok acmeError => some (.acme acmeError)

/-! ## acme.go: the request executor -/

def userAgentString : String := "eggsampler-acme/1.0 Go-http-client/1.1"

/-- The call `http.NewRequest(method, url, body)`. -/
def NewRequest (env : Env σ π κ) (method url : String) (body : Option String) :
    Except String Request :=
  match env.requestError method url with
  | some msg => .error msg
  | none => .ok { Method := method, URL := url, Body := body, Header := [] }

/-- The call `strings.HasSuffix(s, suffix)`. -/
def HasSuffix (s suffix : String) : Bool :=
  suffix.data.isSuffixOf s.data

/-- Helper function to have a central point for performing http requests.
Stores any returned nonces in the stack. (The method `do` of the client; the
Go pair of a response and an error is a `DoResult`.) -/
def clientDo (env : Env σ π κ) (req : Request) (w : World σ) : DoResult × World σ :=
  let req := req.setHeader "User-Agent" userAgentString
  match env.Do req w.ext with
  | (.fail resp msg, s) =>
    (.fail resp msg, { w with ext := s, trace := w.trace ++ [.send req (.fail resp msg)] })
  | (.ok resp, s) =>
    let v := resp.headerGet "Replay-Nonce"
    (.ok resp, { w with ext := env.push v s, trace := w.trace ++ [.send req (.ok resp), .push v] })

/-- Helper function to perform an http get request and read the body. -/
def getRaw (env : Env σ π κ) (url : String) (expectedStatus : List Int) (w : World σ) :
    (Option Response × Option String × Option GoError) × World σ :=
  match NewRequest env "GET" url none with
  | .error msg => ((none, none, some (.errorString ("acme: error creating request: " ++ msg))), w)
  | .ok req =>
    match clientDo env req w with
    | (.fail resp msg, w1) =>
      ((resp, none, some (.errorString ("acme: error fetching response: " ++ msg))), w1)
    | (.ok resp, w1) =>
      match checkError env.unmarshalAcmeError resp expectedStatus with
      | some err => ((some resp, none, some err), w1)
      | none =>
        match resp.Body with
        | .err msg =>
          ((some resp, none, some (.errorString ("acme: error reading response body: " ++ msg))), w1)
        | .ok body => ((some resp, some body, none), w1)

/-- Helper function for performing a http get on an acme resource. `unmarshal`
is `json.Unmarshal` into a value of the type of `out`: it returns the updated
value and the decoding error, if any. The updated `out` is returned. -/
def get {α : Type} (env : Env σ π κ) (unmarshal : String → α → α × Option String)
    (url : String) (out : Option α) (expectedStatus : List Int) (w : World σ) :
    (Option Response × Option α × Option GoError) × World σ :=
  match getRaw env url expectedStatus w with
  | ((resp, _, some err), w1) => ((resp, out, some err), w1)
  | ((resp, body, none), w1) =>
    match body, out with
    | some body, some o =>
      if body.length > 0 then
        match unmarshal body o with
        | (o1, some msg) =>
          ((resp, some o1, some (.errorString ("acme: error parsing response body: " ++ msg))), w1)
        | (o1, none) => ((resp, some o1, none), w1)
      else ((resp, out, none), w1)
    | _, _ => ((resp, out, none), w1)

/-- Helper function to perform an http post request and read the body.
Will attempt to retry if error is badNonce. (The parameter `out` of the
source is not used by the function and is left out.) -/
def postRaw (env : Env σ π κ) (isRetry : Bool) (requestURL keyID : String) (privateKey : κ)
    (payload : π) (expectedStatus : List Int) (w : World σ) :
    (Option Response × Option String × Option GoError) × World σ :=
  match env.Nonce w.newNonceURL w.ext with
  | (.err e, s) =>
    ((none, none, some e), { w with ext := s, trace := w.trace ++ [.acquire (.err e)] })
  | (.ok nonce, s) =>
    let w0 : World σ := { w with ext := s, trace := w.trace ++ [.acquire (.ok nonce)] }
    match env.jwsEncodeJSON payload privateKey requestURL keyID nonce w0.ext with
    | (.err msg, s1) =>
      ((none, none, some (.errorString ("acme: error encoding json payload: " ++ msg))),
        { w0 with ext := s1 })
    | (.ok data, s1) =>
      match NewRequest env "POST" requestURL (some data) with
      | .error msg =>
        ((none, none, some (.errorString ("acme: error creating request: " ++ msg))),
          { w0 with ext := s1 })
      | .ok req =>
        let req := req.setHeader "Content-Type" "application/jose+json"
        match clientDo env req { w0 with ext := s1 } with
        | (.fail resp msg, w2) =>
          ((resp, none, some (.errorString ("acme: error sending request: " ++ msg))), w2)
        | (.ok resp, w2) =>
          match checkError env.unmarshalAcmeError resp expectedStatus with
          | some err =>
            if _h : isRetry = true then
              -- don't attempt to retry if this attempt is the retry
              ((some resp, none, some err), w2)
            else
              match err with
              | .errorString _ =>
                -- don't retry for an error we don't know about
                ((some resp, none, some err), w2)
              | .acme acmeErr =>
                if !HasSuffix acmeErr.Type_ ":badNonce" then
                  -- only retry on a badNonce error
                  ((some resp, none, some err), w2)
                else
                  -- perform the retry
                  postRaw env true requestURL keyID privateKey payload expectedStatus w2
          | none =>
            match resp.Body with
            | .err msg =>
              ((some resp, none,
                some (.errorString ("acme: error reading response body: " ++ msg))), w2)
            | .ok body => ((some resp, some body, none), w2)
termination_by (if isRetry = true then 0 else 1)
decreasing_by simp [*]

/-- Helper function for performing a http post to an acme resource. -/
def post {α : Type} (env : Env σ π κ) (unmarshal : String → α → α × Option String)
    (requestURL keyID : String) (privateKey : κ) (payload : π) (out : Option α)
    (expectedStatus : List Int) (w : World σ) :
    (Option Response × Option α × Option GoError) × World σ :=
  match postRaw env false requestURL keyID privateKey payload expectedStatus w with
  | ((resp, _, some err), w1) => ((resp, out, some err), w1)
  | ((resp, body, none), w1) =>
    match body, out with
    | some body, some o =>
      if body.length > 0 then
        match unmarshal body o with
        | (o1, some msg) =>
          ((resp, some o1,
            some (.errorString ("acme: error parsing response: " ++ msg ++ " - " ++ body))), w1)
        | (o1, none) => ((resp, some o1, none), w1)
      else ((resp, out, none), w1)
    | _, _ => ((resp, out, none), w1)

/-! ## Attempts of a POST and what they leave in the trace -/

/-- Whether an event is a nonce acquisition; every attempt of `postRaw` starts
with exactly one. -/
def Event.isAcquire : Event → Bool
  | .acquire _ => true
  | _ => false

/-- Whether an event is a request handed to the transport. -/
def Event.isSend : Event → Bool
  | .send _ _ => true
  | _ => false

/-- Whether an event, when it is a request handed to the transport, is a POST
to `url`. -/
def Event.isPostTo (url : String) : Event → Bool
  | .send req _ => req.Method == "POST" && req.URL == url
  | _ => true

/-- The values deposited into the nonce supply, in order. -/
def deposited : List Event → List String
  | [] => []
  | .push v :: t => v :: deposited t
  | _ :: t => deposited t

/-- The `Replay-Nonce` header values of the responses received from the
transport, in order. -/
def received : List Event → List String
  | [] => []
  | .send _ (.ok resp) :: t => resp.headerGet "Replay-Nonce" :: received t
  | _ :: t => received t

/-- The response received by one attempt of a POST started in `w`, with the
world after the exchange; none when the nonce acquisition, the encoding, the
request construction or the transport fails. (An auxiliary definition used to
state the retry policy; it follows the first steps of `postRaw`.) -/
def attemptResponse (env : Env σ π κ) (requestURL keyID : String) (privateKey : κ) (payload : π)
    (w : World σ) : Option (Response × World σ) :=
  match env.Nonce w.newNonceURL w.ext with
  | (.err _, _) => none
  | (.ok nonce, s) =>
    match env.jwsEncodeJSON payload privateKey requestURL keyID nonce s with
    | (.err _, _) => none
    | (.ok data, s1) =>
      match NewRequest env "POST" requestURL (some data) with
      | .error _ => none
      | .ok req =>
        match clientDo env (req.setHeader "Content-Type" "application/jose+json")
            { w with ext := s1, trace := w.trace ++ [.acquire (.ok nonce)] } with
        | (.fail _ _, _) => none
        | (.ok resp, w2) => some (resp, w2)

/-- Whether one attempt of a POST started in `w` hands its request to the
transport: the nonce acquisition, the encoding and the request construction
all succeed. (An auxiliary definition used to state the retry policy.) -/
def attemptSends (env : Env σ π κ) (requestURL keyID : String) (privateKey : κ) (payload : π)
    (w : World σ) : Bool :=
  match env.Nonce w.newNonceURL w.ext with
  | (.err _, _) => false
  | (.ok nonce, s) =>
    match env.jwsEncodeJSON payload privateKey requestURL keyID nonce s with
    | (.err _, _) => false
    | (.ok data, _) =>
      match NewRequest env "POST" requestURL (some data) with
      | .error _ => false
      | .ok _ => true

/-- The world one complete attempt of a POST started in `w` leaves, whatever
its outcome: the nonce is acquired, and when the envelope is encoded and the
request is built, the request is sent through `do`, which deposits the nonce
of the response. (An auxiliary definition used to state the retry policy.) -/
def attemptWorld (env : Env σ π κ) (requestURL keyID : String) (privateKey : κ) (payload : π)
    (w : World σ) : World σ :=
  match env.Nonce w.newNonceURL w.ext with
  | (.err e, s) => { w with ext := s, trace := w.trace ++ [.acquire (.err e)] }
  | (.ok nonce, s) =>
    match env.jwsEncodeJSON payload privateKey requestURL keyID nonce s with
    | (.err _, s1) => { w with ext := s1, trace := w.trace ++ [.acquire (.ok nonce)] }
    | (.ok data, s1) =>
      match NewRequest env "POST" requestURL (some data) with
      | .error _ => { w with ext := s1, trace := w.trace ++ [.acquire (.ok nonce)] }
      | .ok req =>
        (clientDo env (req.setHeader "Content-Type" "application/jose+json")
          { w with ext := s1, trace := w.trace ++ [.acquire (.ok nonce)] }).2

/-- The stale-nonce test of `postRaw` on a mapped error. -/
def GoError.isBadNonce : GoError → Bool
  | .acme e => HasSuffix e.Type_ ":badNonce"
  | .errorString _ => false

/-! ## acme.go: link headers

The pattern of `regLink` is a sequence of literal characters, two lazy groups
`(.+?)` and one greedy run `\s*`. Go's regexp returns, at the leftmost
position where there is one, the match a backtracking search finds first;
`matchItems` is that search for patterns of this shape. -/

/-- The double quote character. -/
def quote : Char := Char.ofNat 34

/-- The line feed character. -/
def lineFeed : Char := Char.ofNat 10

/-- The class `\s` of Go's regexp: tab, line feed, form feed, carriage return
and space. -/
def isSpace (c : Char) : Bool :=
  c == Char.ofNat 9 || c == lineFeed || c == Char.ofNat 12 || c == Char.ofNat 13 || c == ' '

/-- The class `.` of Go's regexp without the flag `s`: every character but the
line feed. -/
def isDot (c : Char) : Bool :=
  c != lineFeed

/-- One element of a pattern. -/
inductive Item where
  /-- A literal character. -/
  | lit (c : Char)
  /-- The capturing group `(.+?)`. -/
  | lazyGroup
  /-- The run `\s*`. -/
  | spaces
deriving DecidableEq, Repr

/-- The greedy star of a character class, followed by `k`: the longest run is
tried first, then shorter ones. -/
def greedyStar {β : Type} (p : Char → Bool) (k : List Char → Option β) : List Char → Option β
  | [] => k []
  | x :: xs =>
    if p x then
      match greedyStar p k xs with
      | some r => some r
      | none => k (x :: xs)
    else k (x :: xs)

/-- The lazy plus of a character class, followed by `k`: the shortest run is
tried first, then longer ones. `acc` is the run consumed so far; the run that
succeeds is returned with the result of `k`. -/
def lazyPlus {β : Type} (p : Char → Bool) (k : List Char → Option β) :
    List Char → List Char → Option (List Char × β)
  | _, [] => none
  | acc, x :: xs =>
    if p x then
      match k xs with
      | some r => some (acc ++ [x], r)
      | none => lazyPlus p k (acc ++ [x]) xs
    else none

/-- The first match of a pattern at the start of a string that a backtracking
search finds: the texts of the groups, in order, and the rest of the string. -/
def matchItems : List Item → List Char → Option (List (List Char) × List Char)
  | [], s => some ([], s)
  | .lit c :: items, s =>
    match s with
    | [] => none
    | x :: xs => if x = c then matchItems items xs else none
  | .spaces :: items, s => greedyStar isSpace (fun rest => matchItems items rest) s
  | .lazyGroup :: items, s =>
    match lazyPlus isDot (fun rest => matchItems items rest) [] s with
    | some (group, (groups, rest)) => some (group :: groups, rest)
    | none => none

/-- The pattern of `regLink`. -/
def regLink : List Item :=
  [.lit '<', .lazyGroup, .lit '>', .lit ';', .spaces, .lit 'r', .lit 'e', .lit 'l', .lit '=',
   .lit quote, .lazyGroup, .lit quote]

/-- The submatches of one match at the start of `s`: the whole match followed
by the groups, as `FindAllStringSubmatch` lists them, and the length of the
whole match. -/
def submatchAt (items : List Item) (s : List Char) : Option (List String × Nat) :=
  match matchItems items s with
  | some (groups, rest) =>
    let n := s.length - rest.length
    some (String.mk (s.take n) :: groups.map String.mk, n)
  | none => none

/-- The call `FindAllStringSubmatch(s, -1)`: all successive matches that do not
overlap, from left to right. `skip` is the number of characters still covered
by the last match. -/
def findAllSubmatch (items : List Item) : Nat → List Char → List (List String)
  | _, [] => []
  | skip + 1, _ :: cs => findAllSubmatch items skip cs
  | 0, c :: cs =>
    match submatchAt items (c :: cs) with
    | some (m, n) => m :: findAllSubmatch items (n - 1) cs
    | none => findAllSubmatch items 0 cs

/-- The inner loop of `fetchLink` over the matches in one header value. -/
def scanMatches (wantedLink : String) : List (List String) → Option String
  | [] => none
  | m :: rest =>
    if m.length != 3 then scanMatches wantedLink rest
    else if m.getD 2 "" == wantedLink then some (m.getD 1 "")
    else scanMatches wantedLink rest

/-- The outer loop of `fetchLink` over the values of the `Link` header. -/
def scanHeaders (wantedLink : String) : List String → String
  | [] => ""
  | l :: rest =>
    match scanMatches wantedLink (findAllSubmatch regLink 0 l.data) with
    | some url => url
    | none => scanHeaders wantedLink rest

/-- Fetches a http Link header from a http response. -/
def fetchLink (resp : Option Response) (wantedLink : String) : String :=
  match resp with
  | none => ""
  | some resp =>
    let linkHeader := resp.headerValues "Link"
    if linkHeader.length == 0 then ""
    else scanHeaders wantedLink linkHeader

/-! ## acme.go: client construction and polling defaults -/

/-- Modelled from the spec: the declaration of the directory type is not among
the sources. The endpoint URLs named by the spec, and `Url`, which `NewClient`
assigns. -/
structure AcmeDirectory where
  NewNonce : String
  NewAccount : String
  NewOrder : String
  RevokeCert : String
  KeyChange : String
  Url : String
deriving DecidableEq, Repr

/-- The fields of the client that are plain data; the HTTP client and the nonce
stack it points to live in `World`. -/
structure AcmeClient where
  Directory : AcmeDirectory
  PollInterval : Int
  PollTimeout : Int
deriving DecidableEq, Repr

/-- The zero value of `AcmeClient`. -/
def AcmeClient.zero : AcmeClient :=
  { Directory := { NewNonce := "", NewAccount := "", NewOrder := "", RevokeCert := "",
                   KeyChange := "", Url := "" },
    PollInterval := 0, PollTimeout := 0 }

/-- An option function: it receives a copy of the client, may act on what the
client points to, and returns an error or none. -/
abbrev AcmeOptionFunc (σ : Type) := AcmeClient → σ → Option String × σ

/-- The loop of `NewClient` over its options: stops at the first error. -/
def applyOptions (acmeClient : AcmeClient) : List (AcmeOptionFunc σ) → σ → Option String × σ
  | [], s => (none, s)
  | opt :: rest, s =>
    match opt acmeClient s with
    | (some msg, s1) => (some msg, s1)
    | (none, s1) => applyOptions acmeClient rest s1

/-- NewClient creates a new acme client given a valid directory url. It starts
from the external state `s`, a nonce stack without mint URL and an empty trace. -/
def NewClient (env : Env σ π κ) (unmarshal : String → AcmeDirectory → AcmeDirectory × Option String)
    (directoryURL : String) (options : List (AcmeOptionFunc σ)) (s : σ) :
    (AcmeClient × Option GoError) × World σ :=
  let acmeClient := AcmeClient.zero
  match applyOptions acmeClient options s with
  | (some msg, s1) =>
    ((acmeClient, some (.errorString ("acme: error setting option: " ++ msg))),
      { ext := s1, newNonceURL := "", trace := [] })
  | (none, s1) =>
    match get env unmarshal directoryURL (some acmeClient.Directory) [200]
        { ext := s1, newNonceURL := "", trace := [] } with
    | ((_, out, some err), w1) =>
      (({ acmeClient with Directory := out.getD acmeClient.Directory }, some err), w1)
    | ((_, out, none), w1) =>
      let directory := out.getD acmeClient.Directory
      let acmeClient := { acmeClient with Directory := { directory with Url := directoryURL } }
      ((acmeClient, none), { w1 with newNonceURL := acmeClient.Directory.NewNonce })

/-- One millisecond and one second as `time.Duration` values (nanoseconds). -/
def Millisecond : Int := 1000000
def Second : Int := 1000000000

/-- Helper function to get the poll interval and poll timeout, defaulting if 0. -/
def AcmeClient.getPollingDurations (c : AcmeClient) : Int × Int :=
  let pollInterval := c.PollInterval
  let pollInterval := if pollInterval == 0 then 500 * Millisecond else pollInterval
  let pollTimeout := c.PollTimeout
  let pollTimeout := if pollTimeout == 0 then 30 * Second else pollTimeout
  (pollInterval, pollTimeout)

/-! ## authorization.go -/

/-- Modelled from the spec: the declaration of the challenge type is not among
the sources. The fields the spec names (URL, type, token, key authorization,
status). -/
structure AcmeChallenge where
  Type_ : String
  Url : String
  Status : String
  Token : String
  KeyAuthorization : String
deriving DecidableEq, Repr

/-- A Go map with string keys: a list of bindings with distinct keys. -/
abbrev GoMap (V : Type) := List (String × V)

/-- The assignment `m[k] = v`. -/
def GoMap.set {V : Type} (m : GoMap V) (k : String) (v : V) : GoMap V :=
  (k, v) :: m.filter (fun kv => kv.1 != k)

/-- The lookup `v, ok := m[k]`. -/
def GoMap.get {V : Type} (m : GoMap V) (k : String) : Option V :=
  m.lookup k

/-- The keys of the map. -/
def GoMap.keys {V : Type} (m : GoMap V) : List String :=
  m.map Prod.fst

/-- Modelled from the spec: the declaration of the authorization type is not
among the sources. The fields the spec names, and the two indexes
`FetchAuthorization` assigns. -/
structure AcmeAuthorization where
  Identifier : AcmeIdentifier
  Status : String
  Expires : String
  Challenges : List AcmeChallenge
  ChallengeMap : GoMap AcmeChallenge
  ChallengeTypes : List String
deriving DecidableEq, Repr

/-- The zero value of `AcmeAuthorization`. -/
def AcmeAuthorization.zero : AcmeAuthorization :=
  { Identifier := { Type_ := "", Value := "" }, Status := "", Expires := "", Challenges := [],
    ChallengeMap := [], ChallengeTypes := [] }

/-- The fields of an account that `FetchAuthorization` reads. -/
structure AcmeAccount where
  Url : String
  Thumbprint : String
deriving DecidableEq, Repr

/-- The first loop of `FetchAuthorization`, `for i := 0; i < len(challenges); i++`,
from the index `i` on; `n` is the number of indices left to visit. -/
def fillKeyAuthorizations (account : AcmeAccount) :
    Nat → Nat → List AcmeChallenge → List AcmeChallenge
  | 0, _, challenges => challenges
  | n + 1, i, challenges =>
    match challenges[i]? with
    | none => challenges
    | some c =>
      if c.KeyAuthorization == "" then
        fillKeyAuthorizations account n (i + 1)
          (challenges.set i { c with KeyAuthorization := c.Token ++ "." ++ account.Thumbprint })
      else fillKeyAuthorizations account n (i + 1) challenges

/-- The body of the second loop of `FetchAuthorization`, at one challenge. -/
def indexChallenge (authResp : AcmeAuthorization) (c : AcmeChallenge) : AcmeAuthorization :=
  let authResp := { authResp with ChallengeMap := authResp.ChallengeMap.set c.Type_ c }
  { authResp with ChallengeTypes := authResp.ChallengeTypes ++ [c.Type_] }

/-- FetchAuthorization fetches an authorization from an authorization url
provided in an order. -/
def FetchAuthorization (env : Env σ π κ)
    (unmarshal : String → AcmeAuthorization → AcmeAuthorization × Option String)
    (account : AcmeAccount) (authURL : String) (w : World σ) :
    (AcmeAuthorization × Option GoError) × World σ :=
  let authResp := AcmeAuthorization.zero
  match get env unmarshal authURL (some authResp) [200] w with
  | ((_, out, some err), w1) => ((out.getD authResp, some err), w1)
  | ((_, out, none), w1) =>
    let authResp := out.getD authResp
    let authResp := { authResp with
      Challenges :=
        fillKeyAuthorizations account authResp.Challenges.length 0 authResp.Challenges }
    let authResp := { authResp with ChallengeMap := [] }
    let authResp := { authResp with ChallengeTypes := [] }
    let authResp := authResp.Challenges.foldl indexChallenge authResp
    ((authResp, none), w1)

/-! ## Definitions used to state the theorems, and sample inputs -/

/-- What the first loop of `FetchAuthorization` makes of one challenge: the key
authorization is synthesized when the decoded one is empty. -/
def fillKeyAuthorization (account : AcmeAccount) (c : AcmeChallenge) : AcmeChallenge :=
  { Type_ := c.Type_, Url := c.Url, Status := c.Status, Token := c.Token,
    KeyAuthorization :=
      if c.KeyAuthorization = "" then c.Token ++ "." ++ account.Thumbprint
      else c.KeyAuthorization }

/-- The facts about the events one call adds to the trace: the number of
attempts, the number of requests, that what was deposited is what was
received, and that every request is a POST to `url`. -/
structure TraceFacts (t : List Event) (maxAttempts : Nat) (url : String) : Prop where
  attempts_pos : 1 ≤ t.countP Event.isAcquire
  attempts_le : t.countP Event.isAcquire ≤ maxAttempts
  sends_le : t.countP Event.isSend ≤ t.countP Event.isAcquire
  deposits : deposited t = received t
  posts : t.all (Event.isPostTo url) = true

/-- A transport that answers every request with status 200 and the body `doc`. -/
def demoEnv : Env Unit Unit Unit :=
  { Do := fun _ s =>
      (.ok { StatusCode := 200, Status := "200 OK", Header := [("Replay-Nonce", ["n1"])],
             Body := .ok "doc" }, s),
    Nonce := fun _ s => (.ok "n0", s),
    push := fun _ s => s,
    jwsEncodeJSON := fun _ _ _ _ _ s => (.ok "jws", s),
    requestError := fun _ _ => none,
    unmarshalAcmeError := fun _ => .error "invalid character" }

/-- An authorization document with three challenges, two of them of one type,
and with stale index values. -/
def demoAuthorization : AcmeAuthorization :=
  { Identifier := { Type_ := "dns", Value := "example.com" }, Status := "pending", Expires := "",
    Challenges :=
      [ { Type_ := "http-01", Url := "u1", Status := "pending", Token := "t1",
          KeyAuthorization := "" },
        { Type_ := "dns-01", Url := "u2", Status := "pending", Token := "t2",
          KeyAuthorization := "server" },
        { Type_ := "http-01", Url := "u3", Status := "pending", Token := "t3",
          KeyAuthorization := "" } ],
    ChallengeMap := [("stale", { Type_ := "stale", Url := "", Status := "", Token := "",
                                 KeyAuthorization := "" })],
    ChallengeTypes := ["stale"] }

/-- A stale-nonce problem document. -/
def demoBadNonce : AcmeError :=
  { Status := 400, Type_ := "urn:ietf:params:acme:error:badNonce", Detail := "stale",
    Instance := "", SubProblems := [] }

def demoWorld : World Unit := { ext := (), newNonceURL := "", trace := [] }

/-- A transport whose first answer is a stale-nonce rejection and whose later
answers are another rejection; the external state counts the requests. -/
def staleEnv : Env Nat Unit Unit :=
  { Do := fun _ n =>
      (.ok { StatusCode := if n = 0 then 400 else 403, Status := "", Header := [],
             Body := .ok (if n = 0 then "stale" else "denied") }, n + 1),
    Nonce := fun _ n => (.ok "n0", n),
    push := fun _ n => n,
    jwsEncodeJSON := fun _ _ _ _ _ n => (.ok "jws", n),
    requestError := fun _ _ => none,
    unmarshalAcmeError := fun body =>
      if body = "stale" then .ok demoBadNonce
      else .ok { Status := 403, Type_ := "urn:ietf:params:acme:error:unauthorized",
                 Detail := "denied", Instance := "", SubProblems := [] } }

def staleWorld : World Nat := { ext := 0, newNonceURL := "", trace := [] }

/-- The state of an HTTP client that records every request it is handed, with
the cache of the nonce stack that shares the client. -/
structure Wire (τ : Type) where
  transport : τ
  stack : List String
  sent : List Request

/-- The call `Do` of an HTTP client over the round trip `roundTrip`: the request
is recorded and answered. -/
def Wire.Do {τ : Type} (roundTrip : Request → τ → DoResult × τ) (req : Request)
    (st : Wire τ) : DoResult × Wire τ :=
  match roundTrip req st.transport with
  | (result, t1) => (result, { st with transport := t1, sent := st.sent ++ [req] })

/-- Modelled from the spec: the nonce stack is not among the sources. `acquire`
pops a cached token, the most recently received first, and on an empty cache
performs a dedicated unsigned fetch against the mint endpoint, with the
client's HTTP client, and returns the nonce taken from that response's
anti-replay header; it fails when the mint request fails. (The method of the
fetch is not fixed by the spec.) -/
def nonceStackNonce {τ : Type} (roundTrip : Request → τ → DoResult × τ) (newNonceURL : String)
    (st : Wire τ) : NonceResult × Wire τ :=
  match st.stack with
  | nonce :: rest => (.ok nonce, { st with stack := rest })
  | [] =>
    match Wire.Do roundTrip
        { Method := "HEAD", URL := newNonceURL, Body := none, Header := [] } st with
    | (.ok resp, st1) => (.ok (resp.headerGet "Replay-Nonce"), st1)
    | (.fail _ msg, st1) => (.err (.errorString msg), st1)

/-- Modelled from the spec: the nonce stack is not among the sources. `deposit`
stores a freshly observed token and is a no-op when the token is empty. -/
def nonceStackPush {τ : Type} (v : String) (st : Wire τ) : Wire τ :=
  if v = "" then st else { st with stack := v :: st.stack }

/-- The collaborators of a client whose HTTP client and nonce stack are the ones
above; the signer and the request construction always succeed. -/
def wireEnv {τ : Type} (roundTrip : Request → τ → DoResult × τ)
    (unmarshal : String → Except String AcmeError) : Env (Wire τ) Unit Unit :=
  { Do := Wire.Do roundTrip,
    Nonce := nonceStackNonce roundTrip,
    push := nonceStackPush,
    jwsEncodeJSON := fun _ _ _ _ nonce st => (.ok nonce, st),
    requestError := fun _ _ => none,
    unmarshalAcmeError := unmarshal }

/-- A server that rejects every POST as carrying a stale nonce, without a
`Replay-Nonce` header, and answers every other request with a fresh nonce. -/
def staleRoundTrip (req : Request) (t : Unit) : DoResult × Unit :=
  if req.Method == "POST" then
    (.ok { StatusCode := 400, Status := "400 Bad Request", Header := [], Body := .ok "stale" }, t)
  else
    (.ok { StatusCode := 200, Status := "200 OK", Header := [("Replay-Nonce", ["fresh"])],
           Body := .ok "" }, t)

/-- A client with an empty nonce cache and nothing sent yet. -/
def wireWorld : World (Wire Unit) :=
  { ext := { transport := (), stack := [], sent := [] }, newNonceURL := "ca/nonce", trace := [] }

/-- The request `getRaw` hands to the transport for `url`: an unsigned GET
without body, carrying the client's user agent. -/
def getRequest (url : String) : Request :=
  { Method := "GET", URL := url, Body := none, Header := [("User-Agent", userAgentString)] }

/-- An option that fails. -/
def failingOption : AcmeOptionFunc Unit := fun _ s => (some "bad option", s)

/-- A decoder of directory documents that fills in three endpoints and a
`Url` of the document's own. -/
def demoUnmarshalDirectory (_ : String) (d : AcmeDirectory) : AcmeDirectory × Option String :=
  ({ d with NewNonce := "ca/nonce", NewAccount := "ca/acct", NewOrder := "ca/order",
            Url := "elsewhere" }, none)

/-- A response that carries the given values of the `Link` header. -/
def linkResponse (values : List String) : Response :=
  { StatusCode := 200, Status := "200 OK", Header := [("Link", values)], Body := .ok "" }

/-- The text of a link with the given URL and relation name. -/
def renderLink (link : String × String) : List Char :=
  '<' :: (link.1.data ++ ('>' :: ';' :: ' ' :: 'r' :: 'e' :: 'l' :: '=' :: quote ::
    (link.2.data ++ [quote])))

/-- The text of a header value: links separated by `sep`. -/
def renderLinks (sep : List Char) : List (String × String) → List Char
  | [] => []
  | [link] => renderLink link
  | link :: links => renderLink link ++ (sep ++ renderLinks sep links)

/-- The submatches `fetchLink` reads for a link: the whole text, the URL and
the relation name. -/
def linkSubmatch (link : String × String) : List String :=
  [String.mk (renderLink link), link.1, link.2]

/-- The form of a link the amended C4 asks for: a URL that is not empty and has
no `<`, no `>` and no line feed, and a name that is not empty and has no double
quote and no line feed. -/
def wellFormedLink (link : String × String) : Bool :=
  !link.1.data.isEmpty && link.1.data.all (fun c => c != '<' && c != '>' && c != lineFeed)
    && !link.2.data.isEmpty && link.2.data.all (fun c => c != quote && c != lineFeed)

/-- The form of a link C4 asks for as it is stated: a URL that is not empty and
has no `<` and no `>`, and a name that is not empty and has no double quote. -/
def wellFormedLinkAsStated (link : String × String) : Bool :=
  !link.1.data.isEmpty && link.1.data.all (fun c => c != '<' && c != '>')
    && !link.2.data.isEmpty && link.2.data.all (fun c => c != quote)

/-- The header value `l` contains, somewhere, a link to `url` with the relation
name `name`: the text `<url>;`, any run of white space, and `rel="name"`. -/
def LinkAt (l url name : List Char) : Prop :=
  ∃ pre ws post : List Char, url ≠ [] ∧ (∀ c ∈ ws, isSpace c = true) ∧
    l = pre ++ '<' :: (url ++ '>' :: ';' :: (ws ++ 'r' :: 'e' :: 'l' :: '=' :: quote ::
      (name ++ quote :: post)))

/-- The header value `l` contains a link with the relation name `name`. -/
def ContainsLink (l name : List Char) : Prop :=
  ∃ url : List Char, LinkAt l url name

/-! ## Lemmas on Go maps and on the index loop -/

theorem GoMap.lookup_filter_ne {V : Type} (m : GoMap V) (k t : String) (h : t ≠ k) :
    List.lookup t (m.filter (fun kv => kv.1 != k)) = List.lookup t m := by
  induction m with
  | nil => rfl
  | cons kv m ih =>
    obtain ⟨a, b⟩ := kv
    by_cases hak : a = k
    · subst hak
      have hta : (t == a) = false := by simpa using h
      simp [List.filter, List.lookup, hta, ih]
    · have h1 : (a != k) = true := by simpa using hak
      simp only [List.filter, h1, List.lookup, ih]

theorem GoMap.get_set {V : Type} (m : GoMap V) (k t : String) (v : V) :
    (m.set k v).get t = if t = k then some v else m.get t := by
  unfold GoMap.set GoMap.get
  by_cases h : t = k
  · subst h
    simp [List.lookup]
  · have htk : (t == k) = false := by simpa using h
    simp [List.lookup, htk, h, GoMap.lookup_filter_ne m k t h]

theorem GoMap.mem_keys_set {V : Type} (m : GoMap V) (k t : String) (v : V) :
    t ∈ (m.set k v).keys ↔ t = k ∨ t ∈ m.keys := by
  unfold GoMap.set GoMap.keys
  by_cases h : t = k
  · simp [h]
  · simp only [List.map_cons, List.mem_cons, h, false_or, List.mem_map, List.mem_filter]
    constructor
    · rintro ⟨kv, ⟨hm, _⟩, rfl⟩
      exact ⟨kv, hm, rfl⟩
    · rintro ⟨kv, hm, rfl⟩
      exact ⟨kv, ⟨hm, by simpa using h⟩, rfl⟩

theorem GoMap.nodup_keys_set {V : Type} (m : GoMap V) (k : String) (v : V)
    (h : m.keys.Nodup) : (m.set k v).keys.Nodup := by
  unfold GoMap.set GoMap.keys at *
  rw [List.map_cons, List.nodup_cons]
  constructor
  · simp
  · exact (List.filter_sublist m).map Prod.fst |>.nodup h

theorem fillKeyAuthorizations_append (account : AcmeAccount) :
    ∀ (post pre : List AcmeChallenge),
      fillKeyAuthorizations account post.length pre.length (pre ++ post)
        = pre ++ post.map (fillKeyAuthorization account) := by
  intro post
  induction post with
  | nil => intro pre; simp [fillKeyAuthorizations]
  | cons c post ih =>
    intro pre
    have hget : (pre ++ c :: post)[pre.length]? = some c := by
      rw [List.getElem?_append_right (Nat.le_refl _)]
      simp
    have hstep : ∀ c1 : AcmeChallenge,
        fillKeyAuthorizations account post.length (pre.length + 1) (pre ++ c1 :: post)
          = pre ++ c1 :: post.map (fillKeyAuthorization account) := by
      intro c1
      have := ih (pre ++ [c1])
      simpa using this
    rw [List.length_cons, fillKeyAuthorizations, hget]
    simp only
    by_cases hk : c.KeyAuthorization = ""
    · have hset : (pre ++ c :: post).set pre.length
          { c with KeyAuthorization := c.Token ++ "." ++ account.Thumbprint }
          = pre ++ { c with KeyAuthorization := c.Token ++ "." ++ account.Thumbprint } :: post := by
        simp
      simp only [hk, beq_self_eq_true, if_true]
      rw [hset, hstep]
      simp [fillKeyAuthorization, hk]
    · have hk2 : (c.KeyAuthorization == "") = false := by simpa using hk
      simp only [hk2, Bool.false_eq_true, if_false]
      rw [hstep]
      simp [fillKeyAuthorization, hk]

theorem fillKeyAuthorizations_eq_map (account : AcmeAccount) (challenges : List AcmeChallenge) :
    fillKeyAuthorizations account challenges.length 0 challenges
      = challenges.map (fillKeyAuthorization account) := by
  simpa using fillKeyAuthorizations_append account challenges []

theorem foldl_indexChallenge_append (a : AcmeAuthorization) (cs : List AcmeChallenge)
    (c : AcmeChallenge) :
    (cs ++ [c]).foldl indexChallenge a = indexChallenge (cs.foldl indexChallenge a) c := by
  simp [List.foldl_append]

theorem foldl_indexChallenge_challenges (a : AcmeAuthorization) (cs : List AcmeChallenge) :
    (cs.foldl indexChallenge a).Challenges = a.Challenges := by
  induction cs using List.reverseRecOn with
  | nil => rfl
  | append_singleton cs c ih => rw [foldl_indexChallenge_append]; simpa [indexChallenge] using ih

theorem foldl_indexChallenge_types (a : AcmeAuthorization) (cs : List AcmeChallenge) :
    (cs.foldl indexChallenge a).ChallengeTypes
      = a.ChallengeTypes ++ cs.map (fun c => c.Type_) := by
  induction cs using List.reverseRecOn with
  | nil => simp
  | append_singleton cs c ih => rw [foldl_indexChallenge_append]; simp [indexChallenge, ih]

theorem foldl_indexChallenge_nodup (a : AcmeAuthorization) (cs : List AcmeChallenge)
    (h : a.ChallengeMap.keys.Nodup) : (cs.foldl indexChallenge a).ChallengeMap.keys.Nodup := by
  induction cs using List.reverseRecOn with
  | nil => simpa using h
  | append_singleton cs c ih =>
    rw [foldl_indexChallenge_append]
    exact GoMap.nodup_keys_set _ _ _ ih

theorem foldl_indexChallenge_keys (a : AcmeAuthorization) (cs : List AcmeChallenge) (t : String) :
    t ∈ (cs.foldl indexChallenge a).ChallengeMap.keys
      ↔ t ∈ a.ChallengeMap.keys ∨ t ∈ cs.map (fun c => c.Type_) := by
  induction cs using List.reverseRecOn with
  | nil => simp
  | append_singleton cs c ih =>
    rw [foldl_indexChallenge_append]
    simp only [indexChallenge, GoMap.mem_keys_set, ih, List.map_append, List.map_cons,
      List.map_nil, List.mem_append, List.mem_singleton]
    tauto

theorem foldl_indexChallenge_get (a : AcmeAuthorization) (cs : List AcmeChallenge) (t : String) :
    (cs.foldl indexChallenge a).ChallengeMap.get t
      = ((cs.filter (fun c => c.Type_ == t)).getLast?).orElse (fun _ => a.ChallengeMap.get t) := by
  induction cs using List.reverseRecOn with
  | nil => simp
  | append_singleton cs c ih =>
    rw [foldl_indexChallenge_append]
    simp only [indexChallenge, GoMap.get_set, ih, List.filter_append]
    by_cases h : t = c.Type_
    · subst h
      simp [List.filter]
    · have h1 : (c.Type_ == t) = false := by simpa using fun h2 => h h2.symm
      simp [List.filter, h, h1]

/-! ## Lemmas on `postRaw` -/

theorem deposited_append (t u : List Event) : deposited (t ++ u) = deposited t ++ deposited u := by
  induction t with
  | nil => rfl
  | cons e t ih => cases e <;> simp [deposited, ih]

theorem received_append (t u : List Event) : received (t ++ u) = received t ++ received u := by
  induction t with
  | nil => rfl
  | cons e t ih =>
    cases e with
    | send req result => cases result <;> simp [received, ih]
    | acquire r => simp [received, ih]
    | push v => simp [received, ih]

theorem NewRequest_ok (env : Env σ π κ) {method url : String} {body : Option String}
    {req : Request} (h : NewRequest env method url body = .ok req) :
    req = { Method := method, URL := url, Body := body, Header := [] } := by
  unfold NewRequest at h
  split at h
  · simp at h
  · simp only [Except.ok.injEq] at h
    exact h.symm

theorem postRaw_of_attempt_none (env : Env σ π κ) (isRetry : Bool) (requestURL keyID : String)
    (privateKey : κ) (payload : π) (expectedStatus : List Int) (w : World σ)
    (h : attemptResponse env requestURL keyID privateKey payload w = none) :
    ∃ (r : Option Response) (e : GoError) (w1 : World σ) (t : List Event),
      postRaw env isRetry requestURL keyID privateKey payload expectedStatus w
        = ((r, none, some e), w1) ∧
      w1.trace = w.trace ++ t ∧ w1.newNonceURL = w.newNonceURL ∧
      t.countP Event.isAcquire = 1 ∧ t.countP Event.isSend ≤ 1 ∧
      deposited t = received t ∧
      t.head? = some (.acquire (env.Nonce w.newNonceURL w.ext).1) ∧
      t.all (Event.isPostTo requestURL) = true := by
  rw [postRaw]
  unfold attemptResponse at h
  rcases hN : env.Nonce w.newNonceURL w.ext with ⟨nonce | e, s⟩
  · rw [hN] at h
    simp only at h ⊢
    rcases hJ : env.jwsEncodeJSON payload privateKey requestURL keyID nonce s with ⟨data | msg, s1⟩
    · rw [hJ] at h
      simp only at h ⊢
      rcases hR : NewRequest env "POST" requestURL (some data) with msg | req
      · refine ⟨_, _, _, [.acquire (.ok nonce)], rfl, rfl, rfl, ?_, ?_, ?_, ?_, ?_⟩ <;>
          simp [Event.isAcquire, Event.isSend, deposited, received, hN, Event.isPostTo]
      · rw [hR] at h
        simp only at h ⊢
        unfold clientDo at h ⊢
        rcases hD : env.Do ((req.setHeader "Content-Type" "application/jose+json").setHeader
          "User-Agent" userAgentString) s1 with ⟨resp | ⟨resp, msg⟩, s2⟩
        · simp [hD] at h
        · simp only [hD]
          refine ⟨_, _, _, [.acquire (.ok nonce), .send ((req.setHeader "Content-Type"
            "application/jose+json").setHeader "User-Agent" userAgentString)
            (.fail resp msg)], rfl, ?_, rfl, ?_, ?_, ?_, ?_, ?_⟩ <;>
            simp [Event.isAcquire, Event.isSend, deposited, received, hN, Event.isPostTo,
              Request.setHeader, NewRequest_ok env hR]
    · refine ⟨_, _, _, [.acquire (.ok nonce)], rfl, rfl, rfl, ?_, ?_, ?_, ?_, ?_⟩ <;>
        simp [Event.isAcquire, Event.isSend, deposited, received, hN, Event.isPostTo]
  · refine ⟨_, _, _, [.acquire (.err e)], rfl, rfl, rfl, ?_, ?_, ?_, ?_, ?_⟩ <;>
      simp [Event.isAcquire, Event.isSend, deposited, received, hN, Event.isPostTo]

theorem attemptResponse_trace (env : Env σ π κ) (requestURL keyID : String)
    (privateKey : κ) (payload : π) (w w2 : World σ) (resp : Response)
    (h : attemptResponse env requestURL keyID privateKey payload w = some (resp, w2)) :
    ∃ (nonce : String) (req : Request),
      w2.trace = w.trace ++ [.acquire (.ok nonce), .send req (.ok resp),
        .push (resp.headerGet "Replay-Nonce")] ∧
      w2.newNonceURL = w.newNonceURL ∧ req.Method = "POST" ∧ req.URL = requestURL ∧
      (env.Nonce w.newNonceURL w.ext).1 = .ok nonce := by
  unfold attemptResponse at h
  rcases hN : env.Nonce w.newNonceURL w.ext with ⟨nonce | e, s⟩
  · rw [hN] at h
    simp only at h
    rcases hJ : env.jwsEncodeJSON payload privateKey requestURL keyID nonce s with ⟨data | msg, s1⟩
    · rw [hJ] at h
      simp only at h
      rcases hR : NewRequest env "POST" requestURL (some data) with msg | req
      · simp [hR] at h
      · rw [hR] at h
        simp only at h
        unfold clientDo at h
        rcases hD : env.Do ((req.setHeader "Content-Type" "application/jose+json").setHeader
          "User-Agent" userAgentString) s1 with ⟨resp1 | ⟨resp1, msg⟩, s2⟩
        · simp only [hD, Option.some.injEq, Prod.mk.injEq] at h
          obtain ⟨rfl, rfl⟩ := h
          refine ⟨nonce, (req.setHeader "Content-Type" "application/jose+json").setHeader
            "User-Agent" userAgentString, by simp, rfl, ?_, ?_, rfl⟩
          · unfold NewRequest at hR
            split at hR
            · simp at hR
            · simp only [Except.ok.injEq] at hR
              subst hR
              rfl
          · unfold NewRequest at hR
            split at hR
            · simp at hR
            · simp only [Except.ok.injEq] at hR
              subst hR
              rfl
        · simp [hD] at h
    · simp [hJ] at h
  · simp [hN] at h

theorem postRaw_of_attempt_some (env : Env σ π κ) (isRetry : Bool) (requestURL keyID : String)
    (privateKey : κ) (payload : π) (expectedStatus : List Int) (w w2 : World σ) (resp : Response)
    (h : attemptResponse env requestURL keyID privateKey payload w = some (resp, w2)) :
    postRaw env isRetry requestURL keyID privateKey payload expectedStatus w
      = match checkError env.unmarshalAcmeError resp expectedStatus with
        | some err =>
          if isRetry = true ∨ err.isBadNonce = false then ((some resp, none, some err), w2)
          else postRaw env true requestURL keyID privateKey payload expectedStatus w2
        | none =>
          match resp.Body with
          | .err msg =>
            ((some resp, none,
              some (.errorString ("acme: error reading response body: " ++ msg))), w2)
          | .ok body => ((some resp, some body, none), w2) := by
  rw [postRaw]
  unfold attemptResponse at h
  rcases hN : env.Nonce w.newNonceURL w.ext with ⟨nonce | e, s⟩
  · rw [hN] at h
    simp only at h ⊢
    rcases hJ : env.jwsEncodeJSON payload privateKey requestURL keyID nonce s with ⟨data | msg, s1⟩
    · rw [hJ] at h
      simp only at h ⊢
      rcases hR : NewRequest env "POST" requestURL (some data) with msg | req
      · simp [hR] at h
      · rw [hR] at h
        simp only at h ⊢
        rcases hD : clientDo env (req.setHeader "Content-Type" "application/jose+json")
          { ext := s1, newNonceURL := w.newNonceURL,
            trace := w.trace ++ [.acquire (.ok nonce)] } with ⟨resp1 | ⟨resp1, msg⟩, w3⟩
        · simp only [hD, Option.some.injEq, Prod.mk.injEq] at h
          obtain ⟨rfl, rfl⟩ := h
          simp only
          rcases hC : checkError env.unmarshalAcmeError resp1 expectedStatus with _ | err
          · rfl
          · cases isRetry with
            | true => simp
            | false =>
              cases err with
              | errorString m => simp [GoError.isBadNonce]
              | acme e =>
                simp only [GoError.isBadNonce, Bool.false_eq_true, dite_false, false_or]
                by_cases hs : HasSuffix e.Type_ ":badNonce" = true
                · simp [hs]
                · simp [hs]
        · simp [hD] at h
    · simp [hJ] at h
  · simp [hN] at h

theorem postRaw_retry_trace (env : Env σ π κ) (requestURL keyID : String)
    (privateKey : κ) (payload : π) (expectedStatus : List Int) (w : World σ) :
    ∃ t : List Event,
      (postRaw env true requestURL keyID privateKey payload expectedStatus w).2.trace
        = w.trace ++ t ∧ TraceFacts t 1 requestURL := by
  rcases hA : attemptResponse env requestURL keyID privateKey payload w with _ | ⟨resp, w2⟩
  · obtain ⟨r, e, w1, t, heq, ht, _, ha, hs, hd, hh, hpost⟩ :=
      postRaw_of_attempt_none env true requestURL keyID privateKey payload expectedStatus w hA
    exact ⟨t, by rw [heq]; exact ht, by omega, by omega, by omega, hd, hpost⟩
  · obtain ⟨nonce, req, ht, _, hmeth, hurl, hnonce⟩ :=
      attemptResponse_trace env requestURL keyID privateKey payload w w2 resp hA
    have hw : (postRaw env true requestURL keyID privateKey payload expectedStatus w).2 = w2 := by
      rw [postRaw_of_attempt_some env true requestURL keyID privateKey payload expectedStatus
        w w2 resp hA]
      cases checkError env.unmarshalAcmeError resp expectedStatus with
      | some err => simp
      | none => cases resp.Body <;> rfl
    rw [hw]
    refine ⟨_, ht, ?_, ?_, ?_, ?_, ?_⟩ <;>
      simp [Event.isAcquire, Event.isSend, deposited, received, Event.isPostTo, hmeth, hurl]

theorem postRaw_retry_trace_head (env : Env σ π κ) (requestURL keyID : String)
    (privateKey : κ) (payload : π) (expectedStatus : List Int) (w : World σ) :
    ∃ rest : List Event,
      (postRaw env true requestURL keyID privateKey payload expectedStatus w).2.trace
        = w.trace ++ .acquire (env.Nonce w.newNonceURL w.ext).1 :: rest := by
  rcases hA : attemptResponse env requestURL keyID privateKey payload w with _ | ⟨resp, w2⟩
  · obtain ⟨r, e, w1, t, heq, ht, _, ha, hs, hd, hh, hpost⟩ :=
      postRaw_of_attempt_none env true requestURL keyID privateKey payload expectedStatus w hA
    cases t with
    | nil => simp at hh
    | cons x t =>
      simp only [List.head?_cons, Option.some.injEq] at hh
      exact ⟨t, by rw [heq, ← hh]; exact ht⟩
  · obtain ⟨nonce, req, ht, _, _, _, hnonce⟩ :=
      attemptResponse_trace env requestURL keyID privateKey payload w w2 resp hA
    have hw : (postRaw env true requestURL keyID privateKey payload expectedStatus w).2 = w2 := by
      rw [postRaw_of_attempt_some env true requestURL keyID privateKey payload expectedStatus
        w w2 resp hA]
      cases checkError env.unmarshalAcmeError resp expectedStatus with
      | some err => simp
      | none => cases resp.Body <;> rfl
    rw [hw, hnonce]
    exact ⟨_, ht⟩

theorem postRaw_first_trace (env : Env σ π κ) (requestURL keyID : String)
    (privateKey : κ) (payload : π) (expectedStatus : List Int) (w : World σ) :
    ∃ t : List Event,
      (postRaw env false requestURL keyID privateKey payload expectedStatus w).2.trace
        = w.trace ++ t ∧ TraceFacts t 2 requestURL ∧
      (t.countP Event.isAcquire = 2 ↔
        ∃ (resp : Response) (w2 : World σ) (e : AcmeError),
          attemptResponse env requestURL keyID privateKey payload w = some (resp, w2) ∧
          checkError env.unmarshalAcmeError resp expectedStatus = some (.acme e) ∧
          HasSuffix e.Type_ ":badNonce" = true) ∧
      (∀ (resp : Response) (w2 : World σ) (e : AcmeError),
          attemptResponse env requestURL keyID privateKey payload w = some (resp, w2) →
          checkError env.unmarshalAcmeError resp expectedStatus = some (.acme e) →
          HasSuffix e.Type_ ":badNonce" = true →
          ∃ rest : List Event, w.trace ++ t
            = w2.trace ++ .acquire (env.Nonce w2.newNonceURL w2.ext).1 :: rest) := by
  rcases hA : attemptResponse env requestURL keyID privateKey payload w with _ | ⟨resp, w2⟩
  · obtain ⟨r, e, w1, t, heq, ht, _, ha, hs, hd, hh, hpost⟩ :=
      postRaw_of_attempt_none env false requestURL keyID privateKey payload expectedStatus w hA
    refine ⟨t, by rw [heq]; exact ht, ⟨by omega, by omega, by omega, hd, hpost⟩, ?_, ?_⟩
    · simp [ha]
    · intro resp w2 e h
      simp at h
  · obtain ⟨nonce, req, ht, _, hmeth, hurl, hnonce⟩ :=
      attemptResponse_trace env requestURL keyID privateKey payload w w2 resp hA
    have hfacts : TraceFacts [Event.acquire (.ok nonce), .send req (.ok resp),
        .push (resp.headerGet "Replay-Nonce")] 2 requestURL := by
      constructor <;>
        simp [Event.isAcquire, Event.isSend, deposited, received, Event.isPostTo, hmeth, hurl]
    have hone : List.countP Event.isAcquire [Event.acquire (.ok nonce), .send req (.ok resp),
        .push (resp.headerGet "Replay-Nonce")] = 1 := by
      simp [Event.isAcquire]
    rw [postRaw_of_attempt_some env false requestURL keyID privateKey payload expectedStatus
      w w2 resp hA]
    rcases hC : checkError env.unmarshalAcmeError resp expectedStatus with _ | err
    · have hw : ∀ x : (Option Response × Option String × Option GoError) × World σ,
          x = (match resp.Body with
            | .err msg => ((some resp, none,
                some (.errorString ("acme: error reading response body: " ++ msg))), w2)
            | .ok body => ((some resp, some body, none), w2)) → x.2 = w2 := by
        intro x hx
        cases hB : resp.Body <;> simp [hx, hB]
      simp only
      rw [hw _ rfl]
      refine ⟨_, ht, hfacts, ?_, ?_⟩
      · rw [hone]
        simp only [OfNat.one_ne_ofNat, false_iff, not_exists, not_and]
        intro resp1 w3 e h1 h2
        simp only [Option.some.injEq, Prod.mk.injEq] at h1
        obtain ⟨rfl, rfl⟩ := h1
        rw [hC] at h2
        simp at h2
      · intro resp1 w3 e h1 h2
        simp only [Option.some.injEq, Prod.mk.injEq] at h1
        obtain ⟨rfl, rfl⟩ := h1
        rw [hC] at h2
        simp at h2
    · by_cases hb : err.isBadNonce = false
      · simp only [Bool.false_eq_true, false_or, hb, if_true]
        have hno : ∀ e : AcmeError, checkError env.unmarshalAcmeError resp expectedStatus
            = some (.acme e) → HasSuffix e.Type_ ":badNonce" = true → False := by
          intro e h2 h3
          rw [hC] at h2
          simp only [Option.some.injEq] at h2
          subst h2
          simp [GoError.isBadNonce, h3] at hb
        refine ⟨_, ht, hfacts, ?_, ?_⟩
        · rw [hone]
          simp only [OfNat.one_ne_ofNat, false_iff, not_exists, not_and]
          intro resp1 w3 e h1 h2 h3
          simp only [Option.some.injEq, Prod.mk.injEq] at h1
          obtain ⟨rfl, rfl⟩ := h1
          exact hno e (hC ▸ h2) h3
        · intro resp1 w3 e h1 h2 h3
          simp only [Option.some.injEq, Prod.mk.injEq] at h1
          obtain ⟨rfl, rfl⟩ := h1
          exact (hno e (hC ▸ h2) h3).elim
      · have hb1 : err.isBadNonce = true := by simpa using hb
        simp only [hb1, Bool.false_eq_true, Bool.true_eq_false, or_self, if_false]
        obtain ⟨t2, ht2, f2⟩ :=
          postRaw_retry_trace env requestURL keyID privateKey payload expectedStatus w2
        obtain ⟨rest, hrest⟩ :=
          postRaw_retry_trace_head env requestURL keyID privateKey payload expectedStatus w2
        have h1 := f2.attempts_pos
        have h2 := f2.attempts_le
        have h3 := f2.sends_le
        refine ⟨[Event.acquire (.ok nonce), .send req (.ok resp),
          .push (resp.headerGet "Replay-Nonce")] ++ t2, ?_, ?_, ?_, ?_⟩
        · rw [ht2, ht, List.append_assoc]
        · constructor
          · rw [List.countP_append, hone]; omega
          · rw [List.countP_append, hone]; omega
          · rw [List.countP_append, List.countP_append, hone]
            have : List.countP Event.isSend [Event.acquire (.ok nonce), .send req (.ok resp),
                .push (resp.headerGet "Replay-Nonce")] = 1 := by simp [Event.isSend]
            omega
          · rw [deposited_append, received_append, f2.deposits]
            simp [deposited, received]
          · rw [List.all_append, f2.posts]
            simp [Event.isPostTo, hmeth, hurl]
        · rw [List.countP_append, hone]
          constructor
          · intro _
            cases err with
            | errorString m => simp [GoError.isBadNonce] at hb
            | acme e => exact ⟨resp, w2, e, rfl, hC, by simpa [GoError.isBadNonce] using hb⟩
          · intro _
            omega
        · intro resp1 w3 e h4 _ _
          simp only [Option.some.injEq, Prod.mk.injEq] at h4
          obtain ⟨rfl, rfl⟩ := h4
          refine ⟨rest, ?_⟩
          rw [← List.append_assoc, ← ht, ← hrest]
          rw [ht2, ht, List.append_assoc]

theorem attemptWorld_of_some (env : Env σ π κ) (requestURL keyID : String)
    (privateKey : κ) (payload : π) (w w2 : World σ) (resp : Response)
    (h : attemptResponse env requestURL keyID privateKey payload w = some (resp, w2)) :
    attemptWorld env requestURL keyID privateKey payload w = w2 ∧
    attemptSends env requestURL keyID privateKey payload w = true := by
  unfold attemptResponse at h
  unfold attemptWorld attemptSends
  rcases hN : env.Nonce w.newNonceURL w.ext with ⟨nonce | e, s⟩
  · rw [hN] at h
    simp only at h ⊢
    rcases hJ : env.jwsEncodeJSON payload privateKey requestURL keyID nonce s with ⟨data | msg, s1⟩
    · rw [hJ] at h
      simp only at h ⊢
      rcases hR : NewRequest env "POST" requestURL (some data) with msg | req
      · simp [hR] at h
      · rw [hR] at h
        simp only at h ⊢
        rcases hD : clientDo env (req.setHeader "Content-Type" "application/jose+json")
          { ext := s1, newNonceURL := w.newNonceURL,
            trace := w.trace ++ [.acquire (.ok nonce)] } with ⟨resp1 | ⟨resp1, msg⟩, w3⟩
        · simp only [hD, Option.some.injEq, Prod.mk.injEq] at h
          exact ⟨h.2, trivial⟩
        · simp [hD] at h
    · simp [hJ] at h
  · simp [hN] at h

theorem postRaw_world_of_attempt_none (env : Env σ π κ) (isRetry : Bool)
    (requestURL keyID : String) (privateKey : κ) (payload : π) (expectedStatus : List Int)
    (w : World σ) (h : attemptResponse env requestURL keyID privateKey payload w = none) :
    (postRaw env isRetry requestURL keyID privateKey payload expectedStatus w).2
      = attemptWorld env requestURL keyID privateKey payload w := by
  rw [postRaw]
  unfold attemptResponse at h
  unfold attemptWorld
  rcases hN : env.Nonce w.newNonceURL w.ext with ⟨nonce | e, s⟩
  · rw [hN] at h
    simp only at h ⊢
    rcases hJ : env.jwsEncodeJSON payload privateKey requestURL keyID nonce s with ⟨data | msg, s1⟩
    · rw [hJ] at h
      simp only at h ⊢
      rcases hR : NewRequest env "POST" requestURL (some data) with msg | req
      · rfl
      · rw [hR] at h
        simp only at h ⊢
        rcases hD : clientDo env (req.setHeader "Content-Type" "application/jose+json")
          { ext := s1, newNonceURL := w.newNonceURL,
            trace := w.trace ++ [.acquire (.ok nonce)] } with ⟨resp1 | ⟨resp1, msg⟩, w3⟩
        · simp [hD] at h
        · rfl
    · rfl
  · rfl

theorem attemptWorld_trace (env : Env σ π κ) (requestURL keyID : String)
    (privateKey : κ) (payload : π) (w : World σ) :
    ∃ t : List Event,
      (attemptWorld env requestURL keyID privateKey payload w).trace = w.trace ++ t ∧
      t.countP Event.isAcquire = 1 ∧
      t.countP Event.isSend
        = (attemptSends env requestURL keyID privateKey payload w).toNat := by
  unfold attemptWorld attemptSends
  rcases hN : env.Nonce w.newNonceURL w.ext with ⟨nonce | e, s⟩
  · simp only
    rcases hJ : env.jwsEncodeJSON payload privateKey requestURL keyID nonce s with ⟨data | msg, s1⟩
    · simp only
      rcases hR : NewRequest env "POST" requestURL (some data) with msg | req
      · exact ⟨[.acquire (.ok nonce)], rfl, by simp [Event.isAcquire], by simp [Event.isSend]⟩
      · simp only [clientDo]
        rcases hD : env.Do ((req.setHeader "Content-Type" "application/jose+json").setHeader
          "User-Agent" userAgentString) s1 with ⟨resp | ⟨resp, msg⟩, s2⟩
        · refine ⟨[.acquire (.ok nonce), .send ((req.setHeader "Content-Type"
            "application/jose+json").setHeader "User-Agent" userAgentString) (.ok resp),
            .push (resp.headerGet "Replay-Nonce")], by simp, ?_, ?_⟩ <;>
            simp [Event.isAcquire, Event.isSend]
        · refine ⟨[.acquire (.ok nonce), .send ((req.setHeader "Content-Type"
            "application/jose+json").setHeader "User-Agent" userAgentString)
            (.fail resp msg)], by simp, ?_, ?_⟩ <;>
            simp [Event.isAcquire, Event.isSend]
    · exact ⟨[.acquire (.ok nonce)], rfl, by simp [Event.isAcquire], by simp [Event.isSend]⟩
  · exact ⟨[.acquire (.err e)], rfl, by simp [Event.isAcquire], by simp [Event.isSend]⟩

theorem postRaw_retry_world (env : Env σ π κ) (requestURL keyID : String)
    (privateKey : κ) (payload : π) (expectedStatus : List Int) (w : World σ) :
    (postRaw env true requestURL keyID privateKey payload expectedStatus w).2
      = attemptWorld env requestURL keyID privateKey payload w := by
  rcases hA : attemptResponse env requestURL keyID privateKey payload w with _ | ⟨resp, w2⟩
  · exact postRaw_world_of_attempt_none env true requestURL keyID privateKey payload
      expectedStatus w hA
  · rw [postRaw_of_attempt_some env true requestURL keyID privateKey payload expectedStatus
      w w2 resp hA, (attemptWorld_of_some env requestURL keyID privateKey payload w w2 resp hA).1]
    cases checkError env.unmarshalAcmeError resp expectedStatus with
    | some err => simp
    | none => cases resp.Body <;> rfl

theorem postRaw_first_world (env : Env σ π κ) (requestURL keyID : String)
    (privateKey : κ) (payload : π) (expectedStatus : List Int) (w : World σ) :
    ((¬ ∃ (resp : Response) (w2 : World σ) (e : AcmeError),
        attemptResponse env requestURL keyID privateKey payload w = some (resp, w2) ∧
        checkError env.unmarshalAcmeError resp expectedStatus = some (.acme e) ∧
        HasSuffix e.Type_ ":badNonce" = true) →
      (postRaw env false requestURL keyID privateKey payload expectedStatus w).2
        = attemptWorld env requestURL keyID privateKey payload w) ∧
    (∀ (resp : Response) (w2 : World σ) (e : AcmeError),
      attemptResponse env requestURL keyID privateKey payload w = some (resp, w2) →
      checkError env.unmarshalAcmeError resp expectedStatus = some (.acme e) →
      HasSuffix e.Type_ ":badNonce" = true →
      (postRaw env false requestURL keyID privateKey payload expectedStatus w).2
        = attemptWorld env requestURL keyID privateKey payload w2) := by
  constructor
  · intro hno
    rcases hA : attemptResponse env requestURL keyID privateKey payload w with _ | ⟨resp, w2⟩
    · exact postRaw_world_of_attempt_none env false requestURL keyID privateKey payload
        expectedStatus w hA
    · rw [postRaw_of_attempt_some env false requestURL keyID privateKey payload expectedStatus
        w w2 resp hA, (attemptWorld_of_some env requestURL keyID privateKey payload w w2 resp hA).1]
      rcases hC : checkError env.unmarshalAcmeError resp expectedStatus with _ | err
      · cases resp.Body <;> rfl
      · have hb : err.isBadNonce = false := by
          cases err with
          | errorString m => rfl
          | acme e =>
            cases hs : HasSuffix e.Type_ ":badNonce" with
            | false => simp [GoError.isBadNonce, hs]
            | true => exact (hno ⟨resp, w2, e, hA, hC, hs⟩).elim
        simp [hb]
  · intro resp w2 e hA hC hs
    rw [postRaw_of_attempt_some env false requestURL keyID privateKey payload expectedStatus
      w w2 resp hA, hC]
    simp only [GoError.isBadNonce, hs, Bool.false_eq_true, Bool.true_eq_false, or_self, if_false]
    exact postRaw_retry_world env requestURL keyID privateKey payload expectedStatus w2

theorem post_world {α : Type} (env : Env σ π κ) (unmarshal : String → α → α × Option String)
    (requestURL keyID : String) (privateKey : κ) (payload : π) (out : Option α)
    (expectedStatus : List Int) (w : World σ) :
    (post env unmarshal requestURL keyID privateKey payload out expectedStatus w).2
      = (postRaw env false requestURL keyID privateKey payload expectedStatus w).2 := by
  unfold post
  rcases postRaw env false requestURL keyID privateKey payload expectedStatus w with
    ⟨⟨resp, body, _ | err⟩, w1⟩
  · rcases body with _ | body <;> rcases out with _ | o <;> try rfl
    simp only
    split_ifs
    · rcases unmarshal body o with ⟨o1, _ | msg⟩ <;> rfl
    · rfl
  · rfl

theorem post_error {α : Type} (env : Env σ π κ) (unmarshal : String → α → α × Option String)
    (requestURL keyID : String) (privateKey : κ) (payload : π) (out : Option α)
    (expectedStatus : List Int) (w : World σ) (err : GoError)
    (h : (postRaw env false requestURL keyID privateKey payload expectedStatus w).1.2.2
      = some err) :
    (post env unmarshal requestURL keyID privateKey payload out expectedStatus w).1.2.2
      = some err := by
  revert h
  unfold post
  rcases postRaw env false requestURL keyID privateKey payload expectedStatus w with
    ⟨⟨resp, body, _ | e⟩, w1⟩
  · intro h
    simp at h
  · intro h
    simpa using h

theorem checkError_eq_none_iff (unmarshal : String → Except String AcmeError) (resp : Response)
    (expectedStatuses : List Int) :
    checkError unmarshal resp expectedStatuses = none ↔ resp.StatusCode ∈ expectedStatuses := by
  have hany : (expectedStatuses.any fun statusCode => resp.StatusCode == statusCode) = true
      ↔ resp.StatusCode ∈ expectedStatuses := by
    simp [List.any_eq_true]
  by_cases hm : resp.StatusCode ∈ expectedStatuses
  · simp [checkError, hany.mpr hm, hm]
  · have hf : (expectedStatuses.any fun statusCode => resp.StatusCode == statusCode) = false := by
      rw [Bool.eq_false_iff]
      exact fun h => hm (hany.mp h)
    simp only [checkError, hf, hm, iff_false, Bool.false_eq_true, if_false]
    by_cases hr : (decide (resp.StatusCode < 400) || decide (resp.StatusCode ≥ 600)) = true
    · simp [hr]
    · simp only [hr, if_false]
      cases resp.Body with
      | err msg => simp
      | ok body => cases hu : unmarshal body <;> simp [hu]

/-! ## Lemmas on the pattern of `regLink` and on `fetchLink` -/

theorem lazyPlus_complete {β : Type} (p : Char → Bool) (k : List Char → Option β)
    (stop : List Char) (r : β) (hk : k stop = some r) :
    ∀ (u acc : List Char), u ≠ [] → (∀ c ∈ u, p c = true) →
      (∀ c ∈ u, ∀ t : List Char, k (c :: t) = none) →
      lazyPlus p k acc (u ++ stop) = some (acc ++ u, r) := by
  intro u
  induction u with
  | nil => intro acc h; exact absurd rfl h
  | cons x xs ih =>
    intro acc _ hp hfail
    have hx : p x = true := hp x (List.mem_cons_self _ _)
    cases xs with
    | nil => simp [lazyPlus, hx, hk]
    | cons y ys =>
      have hy : k (y :: (ys ++ stop)) = none :=
        hfail y (List.mem_cons_of_mem _ (List.mem_cons_self _ _)) _
      have := ih (acc ++ [x]) (by simp)
        (fun c hc => hp c (List.mem_cons_of_mem _ hc))
        (fun c hc => hfail c (List.mem_cons_of_mem _ hc))
      have e : lazyPlus p k acc (x :: (y :: (ys ++ stop)))
          = lazyPlus p k (acc ++ [x]) (y :: (ys ++ stop)) := by
        conv_lhs => rw [lazyPlus]
        simp only [hx, if_true, hy]
      rw [List.cons_append, List.cons_append, e]
      simpa using this

theorem matchItems_name (name tail : List Char) (hne : name ≠ [])
    (hname : ∀ c ∈ name, c ≠ quote ∧ c ≠ lineFeed) :
    lazyPlus isDot (fun rest => matchItems [.lit quote] rest) [] (name ++ quote :: tail)
      = some (name, ([], tail)) := by
  have h := lazyPlus_complete isDot (fun rest => matchItems [.lit quote] rest) (quote :: tail)
    ([], tail) (by simp [matchItems]) name [] hne
    (fun c hc => by simp [isDot, (hname c hc).2])
    (fun c hc t => by simp [matchItems, (hname c hc).1])
  simpa using h

theorem wellFormedLink_iff (link : String × String) :
    wellFormedLink link = true ↔
      link.1.data ≠ [] ∧ (∀ c ∈ link.1.data, c ≠ '<' ∧ c ≠ '>' ∧ c ≠ lineFeed) ∧
      link.2.data ≠ [] ∧ (∀ c ∈ link.2.data, c ≠ quote ∧ c ≠ lineFeed) := by
  simp [wellFormedLink, List.isEmpty_iff, and_assoc]

theorem isSpace_space : isSpace ' ' = true := by decide

theorem isSpace_r : isSpace 'r' = false := by decide

theorem matchItems_lit_cons (c x : Char) (items : List Item) (xs : List Char) :
    matchItems (.lit c :: items) (x :: xs) = if x = c then matchItems items xs else none := by
  simp [matchItems]

theorem matchItems_spaces (items : List Item) (s : List Char) :
    matchItems (.spaces :: items) s = greedyStar isSpace (fun rest => matchItems items rest) s := by
  simp [matchItems]

theorem matchItems_lazyGroup (items : List Item) (s : List Char) :
    matchItems (.lazyGroup :: items) s
      = match lazyPlus isDot (fun rest => matchItems items rest) [] s with
        | some (group, (groups, rest)) => some (group :: groups, rest)
        | none => none := by
  simp [matchItems]

theorem greedyStar_cons {β : Type} (p : Char → Bool) (k : List Char → Option β) (x : Char)
    (xs : List Char) :
    greedyStar p k (x :: xs)
      = if p x then
          match greedyStar p k xs with
          | some r => some r
          | none => k (x :: xs)
        else k (x :: xs) := by
  simp [greedyStar]

theorem matchItems_link_tail (name tail : List Char) (hne : name ≠ [])
    (hname : ∀ c ∈ name, c ≠ quote ∧ c ≠ lineFeed) :
    matchItems [.lit '>', .lit ';', .spaces, .lit 'r', .lit 'e', .lit 'l', .lit '=', .lit quote,
        .lazyGroup, .lit quote]
      ('>' :: ';' :: ' ' :: 'r' :: 'e' :: 'l' :: '=' :: quote :: (name ++ quote :: tail))
      = some ([name], tail) := by
  rw [matchItems_lit_cons, if_pos rfl, matchItems_lit_cons, if_pos rfl, matchItems_spaces,
    greedyStar_cons, if_pos isSpace_space, greedyStar_cons, if_neg (by simp [isSpace_r])]
  try dsimp only
  rw [matchItems_lit_cons, if_pos rfl, matchItems_lit_cons, if_pos rfl, matchItems_lit_cons,
    if_pos rfl, matchItems_lit_cons, if_pos rfl, matchItems_lit_cons, if_pos rfl,
    matchItems_lazyGroup, matchItems_name name tail hne hname]

theorem matchItems_link (link : String × String) (tail : List Char)
    (hwf : wellFormedLink link = true) :
    matchItems regLink (renderLink link ++ tail) = some ([link.1.data, link.2.data], tail) := by
  obtain ⟨hu, hurl, hn, hname⟩ := (wellFormedLink_iff link).mp hwf
  have hstop := matchItems_link_tail link.2.data tail hn hname
  have h := lazyPlus_complete isDot
    (fun rest => matchItems [.lit '>', .lit ';', .spaces, .lit 'r', .lit 'e', .lit 'l', .lit '=',
      .lit quote, .lazyGroup, .lit quote] rest)
    ('>' :: ';' :: ' ' :: 'r' :: 'e' :: 'l' :: '=' :: quote :: (link.2.data ++ quote :: tail))
    ([link.2.data], tail) hstop link.1.data [] hu
    (fun c hc => by simp [isDot, (hurl c hc).2.2])
    (fun c hc t => by dsimp only; rw [matchItems_lit_cons, if_neg (hurl c hc).2.1])
  simp only [List.nil_append] at h
  have e : renderLink link ++ tail = '<' :: (link.1.data ++ ('>' :: ';' :: ' ' :: 'r' :: 'e' ::
      'l' :: '=' :: quote :: (link.2.data ++ quote :: tail))) := by
    simp [renderLink]
  rw [e, regLink, matchItems_lit_cons, if_pos rfl, matchItems_lazyGroup, h]

theorem findAllSubmatch_skip (items : List Item) (pre rest : List Char) :
    findAllSubmatch items pre.length (pre ++ rest) = findAllSubmatch items 0 rest := by
  induction pre with
  | nil => rfl
  | cons x xs ih => simpa [findAllSubmatch] using ih

theorem findAllSubmatch_link (link : String × String) (tail : List Char)
    (hwf : wellFormedLink link = true) :
    findAllSubmatch regLink 0 (renderLink link ++ tail)
      = linkSubmatch link :: findAllSubmatch regLink 0 tail := by
  have hm := matchItems_link link tail hwf
  have hlen : (renderLink link ++ tail).length - tail.length = (renderLink link).length := by
    simp
  have hsub : submatchAt regLink (renderLink link ++ tail)
      = some (linkSubmatch link, (renderLink link).length) := by
    simp only [submatchAt, hm, hlen, List.take_left', linkSubmatch, List.map_cons, List.map_nil]
  have hcons : renderLink link ++ tail
      = '<' :: ((renderLink link).tail ++ tail) := by
    simp [renderLink]
  have hl : (renderLink link).length - 1 = (renderLink link).tail.length := by
    simp
  rw [hcons, findAllSubmatch, ← hcons, hsub]
  simp only
  rw [hl, findAllSubmatch_skip]

theorem findAllSubmatch_other (c : Char) (cs : List Char) (hc : c ≠ '<') :
    findAllSubmatch regLink 0 (c :: cs) = findAllSubmatch regLink 0 cs := by
  have hm : matchItems regLink (c :: cs) = none := by
    rw [regLink, matchItems_lit_cons, if_neg hc]
  simp [findAllSubmatch, submatchAt, hm]

theorem findAllSubmatch_sep (sep tail : List Char) (hsep : ∀ c ∈ sep, c ≠ '<') :
    findAllSubmatch regLink 0 (sep ++ tail) = findAllSubmatch regLink 0 tail := by
  induction sep with
  | nil => rfl
  | cons x xs ih =>
    rw [List.cons_append, findAllSubmatch_other x _ (hsep x (List.mem_cons_self _ _))]
    exact ih (fun c hc => hsep c (List.mem_cons_of_mem _ hc))

theorem findAllSubmatch_links (sep : List Char) (hsep : ∀ c ∈ sep, c ≠ '<')
    (links : List (String × String)) (hwf : ∀ link ∈ links, wellFormedLink link = true) :
    findAllSubmatch regLink 0 (renderLinks sep links) = links.map linkSubmatch := by
  induction links with
  | nil => rfl
  | cons link links ih =>
    have h1 := hwf link (List.mem_cons_self _ _)
    have h2 := ih (fun l hl => hwf l (List.mem_cons_of_mem _ hl))
    cases links with
    | nil =>
      have := findAllSubmatch_link link [] h1
      simpa [renderLinks, findAllSubmatch] using this
    | cons link2 links =>
      rw [renderLinks, findAllSubmatch_link link _ h1, findAllSubmatch_sep sep _ hsep, h2]
      · rfl
      · simp

theorem scanMatches_links (wantedLink : String) (links : List (String × String)) :
    scanMatches wantedLink (links.map linkSubmatch)
      = (links.find? (fun link => link.2 == wantedLink)).map Prod.fst := by
  induction links with
  | nil => rfl
  | cons link links ih =>
    by_cases h : link.2 = wantedLink
    · simp [scanMatches, linkSubmatch, h]
    · simp [scanMatches, linkSubmatch, h, ih]

theorem scanHeaders_links (wantedLink : String) (sep : List Char) (hsep : ∀ c ∈ sep, c ≠ '<')
    (occurrences : List (List (String × String)))
    (hwf : ∀ links ∈ occurrences, ∀ link ∈ links, wellFormedLink link = true) :
    scanHeaders wantedLink (occurrences.map fun links => String.mk (renderLinks sep links))
      = (((occurrences.flatten).find? (fun link => link.2 == wantedLink)).map Prod.fst).getD "" := by
  induction occurrences with
  | nil => rfl
  | cons links occurrences ih =>
    have h1 := findAllSubmatch_links sep hsep links (hwf links (List.mem_cons_self _ _))
    have h2 := ih (fun l hl => hwf l (List.mem_cons_of_mem _ hl))
    simp only [List.map_cons, scanHeaders, h1, scanMatches_links, List.flatten_cons,
      List.find?_append]
    cases hf : links.find? (fun link => link.2 == wantedLink) with
    | some l => simp
    | none => simpa using h2

theorem lazyPlus_sound {β : Type} (p : Char → Bool) (k : List Char → Option β) :
    ∀ (s acc cap : List Char) (r : β), lazyPlus p k acc s = some (cap, r) →
      ∃ u rest : List Char, u ≠ [] ∧ cap = acc ++ u ∧ s = u ++ rest ∧ k rest = some r := by
  intro s
  induction s with
  | nil => intro acc cap r h; simp [lazyPlus] at h
  | cons x xs ih =>
    intro acc cap r h
    rw [lazyPlus] at h
    by_cases hx : p x = true
    · simp only [hx, if_true] at h
      cases hk : k xs with
      | some r1 =>
        simp only [hk, Option.some.injEq, Prod.mk.injEq] at h
        exact ⟨[x], xs, by simp, h.1.symm, rfl, h.2 ▸ hk⟩
      | none =>
        simp only [hk] at h
        obtain ⟨u, rest, _, hcap, hs, hrest⟩ := ih _ _ _ h
        exact ⟨x :: u, rest, by simp, by simpa using hcap, by simp [hs], hrest⟩
    · simp [hx] at h

theorem greedyStar_sound {β : Type} (p : Char → Bool) (k : List Char → Option β) :
    ∀ (s : List Char) (r : β), greedyStar p k s = some r →
      ∃ ws rest : List Char, s = ws ++ rest ∧ (∀ c ∈ ws, p c = true) ∧ k rest = some r := by
  intro s
  induction s with
  | nil => intro r h; exact ⟨[], [], rfl, by simp, by simpa [greedyStar] using h⟩
  | cons x xs ih =>
    intro r h
    rw [greedyStar_cons] at h
    by_cases hx : p x = true
    · simp only [hx, if_true] at h
      cases hg : greedyStar p k xs with
      | some r1 =>
        simp only [hg, Option.some.injEq] at h
        obtain ⟨ws, rest, hs, hws, hrest⟩ := ih r1 hg
        refine ⟨x :: ws, rest, by simp [hs], ?_, h ▸ hrest⟩
        intro c hc
        rcases List.mem_cons.mp hc with rfl | hc
        · exact hx
        · exact hws c hc
      | none =>
        simp only [hg] at h
        exact ⟨[], x :: xs, rfl, by simp, h⟩
    · simp only [hx, Bool.false_eq_true, if_false] at h
      exact ⟨[], x :: xs, rfl, by simp, h⟩

theorem matchItems_lit_sound (c : Char) (items : List Item) (s : List Char)
    (r : List (List Char) × List Char) (h : matchItems (.lit c :: items) s = some r) :
    ∃ xs : List Char, s = c :: xs ∧ matchItems items xs = some r := by
  cases s with
  | nil => simp [matchItems] at h
  | cons x xs =>
    rw [matchItems_lit_cons] at h
    by_cases hx : x = c
    · rw [if_pos hx] at h
      exact ⟨xs, by rw [hx], h⟩
    · rw [if_neg hx] at h
      exact absurd h (by simp)

theorem matchItems_lazyGroup_sound (items : List Item) (s : List Char)
    (r : List (List Char) × List Char) (h : matchItems (.lazyGroup :: items) s = some r) :
    ∃ (u rest : List Char) (groups : List (List Char)), u ≠ [] ∧ s = u ++ rest ∧
      r.1 = u :: groups ∧ matchItems items rest = some (groups, r.2) := by
  rw [matchItems_lazyGroup] at h
  cases hl : lazyPlus isDot (fun rest => matchItems items rest) [] s with
  | none => simp [hl] at h
  | some v =>
    obtain ⟨group, groups, rest⟩ := v
    simp only [hl, Option.some.injEq] at h
    obtain ⟨u, rest1, hu, hcap, hs, hk⟩ := lazyPlus_sound _ _ _ _ _ _ hl
    simp only [List.nil_append] at hcap
    subst hcap
    subst h
    exact ⟨group, rest1, groups, hu, hs, rfl, hk⟩

theorem matchItems_regLink_sound (s rest : List Char) (groups : List (List Char))
    (h : matchItems regLink s = some (groups, rest)) :
    ∃ url ws name : List Char, groups = [url, name] ∧ url ≠ [] ∧
      (∀ c ∈ ws, isSpace c = true) ∧
      s = '<' :: (url ++ '>' :: ';' :: (ws ++ 'r' :: 'e' :: 'l' :: '=' :: quote ::
        (name ++ quote :: rest))) := by
  rw [regLink] at h
  obtain ⟨s1, e1, h1⟩ := matchItems_lit_sound _ _ _ _ h
  obtain ⟨url, s2, groups1, hurl, e2, hg, h2⟩ := matchItems_lazyGroup_sound _ _ _ h1
  obtain ⟨s3, e3, h3⟩ := matchItems_lit_sound _ _ _ _ h2
  obtain ⟨s4, e4, h4⟩ := matchItems_lit_sound _ _ _ _ h3
  rw [matchItems_spaces] at h4
  obtain ⟨ws, s5, e5, hws, h5⟩ := greedyStar_sound _ _ _ _ h4
  dsimp only at h5
  obtain ⟨s6, e6, h6⟩ := matchItems_lit_sound _ _ _ _ h5
  obtain ⟨s7, e7, h7⟩ := matchItems_lit_sound _ _ _ _ h6
  obtain ⟨s8, e8, h8⟩ := matchItems_lit_sound _ _ _ _ h7
  obtain ⟨s9, e9, h9⟩ := matchItems_lit_sound _ _ _ _ h8
  obtain ⟨s10, e10, h10⟩ := matchItems_lit_sound _ _ _ _ h9
  obtain ⟨name, s11, groups2, _, e11, hg2, h11⟩ := matchItems_lazyGroup_sound _ _ _ h10
  obtain ⟨s12, e12, h12⟩ := matchItems_lit_sound _ _ _ _ h11
  simp only [matchItems, Option.some.injEq, Prod.mk.injEq] at h12
  obtain ⟨hgroups, hrest⟩ := h12
  simp only at hg hg2
  refine ⟨url, ws, name, by rw [hg, hg2, ← hgroups], hurl, hws, ?_⟩
  rw [e1, e2, e3, e4, e5, e6, e7, e8, e9, e10, e11, e12, hrest]

theorem findAllSubmatch_sound :
    ∀ (s : List Char) (skip : Nat) (m : List String), m ∈ findAllSubmatch regLink skip s →
      ∃ (whole : String) (url name : List Char),
        m = [whole, String.mk url, String.mk name] ∧ LinkAt s url name := by
  intro s
  induction s with
  | nil => intro skip m h; simp [findAllSubmatch] at h
  | cons c cs ih =>
    have hshift : ∀ (m : List String) (skip : Nat), m ∈ findAllSubmatch regLink skip cs →
        ∃ (whole : String) (url name : List Char),
          m = [whole, String.mk url, String.mk name] ∧ LinkAt (c :: cs) url name := by
      intro m skip hm
      obtain ⟨whole, url, name, hm1, pre, ws, post, hu, hws, hcs⟩ := ih skip m hm
      exact ⟨whole, url, name, hm1, c :: pre, ws, post, hu, hws, by rw [hcs]; rfl⟩
    intro skip m h
    cases skip with
    | succ k => exact hshift m k (by simpa [findAllSubmatch] using h)
    | zero =>
      rw [findAllSubmatch] at h
      cases hsub : submatchAt regLink (c :: cs) with
      | none =>
        simp only [hsub] at h
        exact hshift m 0 h
      | some v =>
        obtain ⟨m0, n⟩ := v
        simp only [hsub, List.mem_cons] at h
        rcases h with rfl | h
        · unfold submatchAt at hsub
          cases hm : matchItems regLink (c :: cs) with
          | none => simp [hm] at hsub
          | some w =>
            obtain ⟨groups, rest⟩ := w
            simp only [hm, Option.some.injEq, Prod.mk.injEq] at hsub
            obtain ⟨url, ws, name, rfl, hurl, hws, hs⟩ := matchItems_regLink_sound _ _ _ hm
            refine ⟨_, url, name, hsub.1.symm, [], ws, rest, hurl, hws, ?_⟩
            rw [hs]
            rfl
        · exact hshift m _ h

theorem scanMatches_sound (wantedLink url : String) :
    ∀ ms : List (List String), scanMatches wantedLink ms = some url →
      ∃ m ∈ ms, m.length = 3 ∧ m.getD 2 "" = wantedLink ∧ url = m.getD 1 "" := by
  intro ms
  induction ms with
  | nil => intro h; simp [scanMatches] at h
  | cons m rest ih =>
    intro h
    rw [scanMatches] at h
    by_cases hl : m.length = 3
    · by_cases hw : m.getD 2 "" = wantedLink
      · simp only [hl, bne_self_eq_false, Bool.false_eq_true, if_false, hw, beq_self_eq_true,
          if_true, Option.some.injEq] at h
        exact ⟨m, List.mem_cons_self _ _, hl, hw, h.symm⟩
      · have hw2 : (m.getD 2 "" == wantedLink) = false := by simpa using hw
        simp only [hl, bne_self_eq_false, Bool.false_eq_true, if_false, hw2] at h
        obtain ⟨m1, hm1, h1⟩ := ih h
        exact ⟨m1, List.mem_cons_of_mem _ hm1, h1⟩
    · have hl2 : (m.length != 3) = true := by simpa using hl
      simp only [hl2, if_true] at h
      obtain ⟨m1, hm1, h1⟩ := ih h
      exact ⟨m1, List.mem_cons_of_mem _ hm1, h1⟩

theorem scanMatches_absent (wantedLink l : String) (h : ¬ ContainsLink l.data wantedLink.data) :
    scanMatches wantedLink (findAllSubmatch regLink 0 l.data) = none := by
  cases hs : scanMatches wantedLink (findAllSubmatch regLink 0 l.data) with
  | none => rfl
  | some url =>
    exfalso
    obtain ⟨m, hm, _, hw, _⟩ := scanMatches_sound wantedLink url _ hs
    obtain ⟨whole, u, name, rfl, hlink⟩ := findAllSubmatch_sound _ _ _ hm
    have hname : name = wantedLink.data := by
      have : String.mk name = wantedLink := by simpa using hw
      rw [← this]
    exact h ⟨u, hname ▸ hlink⟩

theorem scanHeaders_absent (wantedLink : String) :
    ∀ ls : List String, (∀ l ∈ ls, ¬ ContainsLink l.data wantedLink.data) →
      scanHeaders wantedLink ls = "" := by
  intro ls
  induction ls with
  | nil => intro _; rfl
  | cons l rest ih =>
    intro h
    rw [scanHeaders, scanMatches_absent wantedLink l (h l (List.mem_cons_self _ _))]
    exact ih (fun x hx => h x (List.mem_cons_of_mem _ hx))

/-! ## Theorems -/

/-- C1, as stated, fails: with an empty nonce cache and a server that rejects
every POST as stale without handing out a nonce, one call of `post` puts four
requests on the wire, the two POSTs and the two fetches by which the nonce
supply mints a nonce, not at most two. -/
theorem post_puts_four_requests_on_the_wire :
    ((post (wireEnv staleRoundTrip (fun _ => .ok demoBadNonce)) (fun _ (o : Unit) => (o, none))
        "order" "kid" () () none [201] wireWorld).2.ext.sent.map fun req => req.Method)
      = ["HEAD", "POST", "HEAD", "POST"] ∧
    ¬ ((post (wireEnv staleRoundTrip (fun _ => .ok demoBadNonce)) (fun _ (o : Unit) => (o, none))
        "order" "kid" () () none [201] wireWorld).2.ext.sent.length ≤ 2) := by
  have h := (postRaw_first_world (wireEnv staleRoundTrip (fun _ => .ok demoBadNonce))
    "order" "kid" () () [201] wireWorld).2 _ _ demoBadNonce rfl rfl (by decide)
  rw [post_world, h]
  decide

/-- C1, amended: a call of `post` makes one or two attempts. An attempt acquires
a nonce from the nonce supply and, when the envelope is encoded and the request
is built, sends one POST to the request URL through `do`. The second attempt is
made exactly when the first one received a response whose status is not
expected and which `checkError` maps to an `AcmeError` with a type ending in
`:badNonce`; it is a complete attempt, started in the world the first exchange
left. There is no third attempt, so `post` itself sends at most two requests,
both POSTs; the requests the nonce supply makes on its own are not counted. -/
theorem post_retry_policy {α : Type} (env : Env σ π κ)
    (unmarshal : String → α → α × Option String) (requestURL keyID : String) (privateKey : κ)
    (payload : π) (out : Option α) (expectedStatus : List Int) (w : World σ) :
    ∃ t : List Event,
      (post env unmarshal requestURL keyID privateKey payload out expectedStatus w).2.trace
        = w.trace ++ t ∧
      (t.countP Event.isAcquire = 1 ∨ t.countP Event.isAcquire = 2) ∧
      t.countP Event.isSend ≤ t.countP Event.isAcquire ∧
      t.countP Event.isSend ≤ 2 ∧
      (∀ (req : Request) (result : DoResult), Event.send req result ∈ t →
        req.Method = "POST" ∧ req.URL = requestURL) ∧
      (t.countP Event.isAcquire = 2 ↔
        ∃ (resp : Response) (w2 : World σ) (e : AcmeError),
          attemptResponse env requestURL keyID privateKey payload w = some (resp, w2) ∧
          resp.StatusCode ∉ expectedStatus ∧
          checkError env.unmarshalAcmeError resp expectedStatus = some (.acme e) ∧
          HasSuffix e.Type_ ":badNonce" = true) ∧
      (∀ (resp : Response) (w2 : World σ) (e : AcmeError),
          attemptResponse env requestURL keyID privateKey payload w = some (resp, w2) →
          checkError env.unmarshalAcmeError resp expectedStatus = some (.acme e) →
          HasSuffix e.Type_ ":badNonce" = true →
          ∃ rest : List Event, w.trace ++ t
            = w2.trace ++ .acquire (env.Nonce w2.newNonceURL w2.ext).1 :: rest) ∧
      (t.countP Event.isAcquire = 1 →
        (post env unmarshal requestURL keyID privateKey payload out expectedStatus w).2
          = attemptWorld env requestURL keyID privateKey payload w ∧
        t.countP Event.isSend
          = (attemptSends env requestURL keyID privateKey payload w).toNat) ∧
      (∀ (resp : Response) (w2 : World σ) (e : AcmeError),
          attemptResponse env requestURL keyID privateKey payload w = some (resp, w2) →
          checkError env.unmarshalAcmeError resp expectedStatus = some (.acme e) →
          HasSuffix e.Type_ ":badNonce" = true →
          (post env unmarshal requestURL keyID privateKey payload out expectedStatus w).2
            = attemptWorld env requestURL keyID privateKey payload w2 ∧
          t.countP Event.isSend
            = 1 + (attemptSends env requestURL keyID privateKey payload w2).toNat) := by
  obtain ⟨t, ht, facts, hiff, hsecond⟩ :=
    postRaw_first_trace env requestURL keyID privateKey payload expectedStatus w
  have h1 := facts.attempts_pos
  have h2 := facts.attempts_le
  have h3 := facts.sends_le
  have hposts : ∀ (req : Request) (result : DoResult), Event.send req result ∈ t →
      req.Method = "POST" ∧ req.URL = requestURL := by
    intro req result hmem
    have := List.all_eq_true.mp facts.posts _ hmem
    simpa [Event.isPostTo] using this
  have hworld := postRaw_first_world env requestURL keyID privateKey payload expectedStatus w
  have hfirst : t.countP Event.isAcquire = 1 →
      (post env unmarshal requestURL keyID privateKey payload out expectedStatus w).2
        = attemptWorld env requestURL keyID privateKey payload w ∧
      t.countP Event.isSend
        = (attemptSends env requestURL keyID privateKey payload w).toNat := by
    intro hone
    have hno : ¬ ∃ (resp : Response) (w2 : World σ) (e : AcmeError),
        attemptResponse env requestURL keyID privateKey payload w = some (resp, w2) ∧
        checkError env.unmarshalAcmeError resp expectedStatus = some (.acme e) ∧
        HasSuffix e.Type_ ":badNonce" = true := by
      intro hc
      have := hiff.mpr hc
      omega
    have hw := hworld.1 hno
    obtain ⟨t1, ht1, _, hs1⟩ := attemptWorld_trace env requestURL keyID privateKey payload w
    have heq : t = t1 := by
      have : w.trace ++ t = w.trace ++ t1 := by rw [← ht, hw, ht1]
      exact List.append_cancel_left this
    exact ⟨by rw [post_world]; exact hw, by rw [heq]; exact hs1⟩
  have hretry : ∀ (resp : Response) (w2 : World σ) (e : AcmeError),
      attemptResponse env requestURL keyID privateKey payload w = some (resp, w2) →
      checkError env.unmarshalAcmeError resp expectedStatus = some (.acme e) →
      HasSuffix e.Type_ ":badNonce" = true →
      (post env unmarshal requestURL keyID privateKey payload out expectedStatus w).2
        = attemptWorld env requestURL keyID privateKey payload w2 ∧
      t.countP Event.isSend
        = 1 + (attemptSends env requestURL keyID privateKey payload w2).toNat := by
    intro resp w2 e hA hC hs
    have hw := hworld.2 resp w2 e hA hC hs
    obtain ⟨nonce, req, hw2, _, _, _, _⟩ :=
      attemptResponse_trace env requestURL keyID privateKey payload w w2 resp hA
    obtain ⟨t2, ht2, _, hs2⟩ := attemptWorld_trace env requestURL keyID privateKey payload w2
    have heq : t = [Event.acquire (.ok nonce), .send req (.ok resp),
        .push (resp.headerGet "Replay-Nonce")] ++ t2 := by
      have : w.trace ++ t = w.trace ++ ([Event.acquire (.ok nonce), .send req (.ok resp),
          .push (resp.headerGet "Replay-Nonce")] ++ t2) := by
        rw [← ht, hw, ht2, hw2, List.append_assoc]
      exact List.append_cancel_left this
    refine ⟨by rw [post_world]; exact hw, ?_⟩
    rw [heq, List.countP_append, hs2]
    simp [Event.isSend]
  refine ⟨t, by rw [post_world]; exact ht, by omega, h3, by omega, hposts, ?_, hsecond,
    hfirst, hretry⟩
  rw [hiff]
  constructor
  · rintro ⟨resp, w2, e, ha, hc, hs⟩
    refine ⟨resp, w2, e, ha, ?_, hc, hs⟩
    intro hm
    rw [(checkError_eq_none_iff _ _ _).mpr hm] at hc
    simp at hc
  · rintro ⟨resp, w2, e, ha, _, hc, hs⟩
    exact ⟨resp, w2, e, ha, hc, hs⟩

theorem post_retry_policy_witness :
    ∃ t : List Event,
      (post staleEnv (fun _ (o : Unit) => (o, none)) "order" "kid" () () none [201]
        staleWorld).2.trace = [] ++ t ∧
      t.countP Event.isAcquire = 2 ∧ t.countP Event.isSend = 2 := by
  obtain ⟨t, ht, _, _, _, _, hiff, _, _, hretry⟩ :=
    post_retry_policy staleEnv (fun _ (o : Unit) => (o, none)) "order" "kid" () () none [201]
      staleWorld
  exact ⟨t, ht, hiff.mpr ⟨_, _, demoBadNonce, rfl, by decide, rfl, by decide⟩,
    (hretry _ _ demoBadNonce rfl rfl (by decide)).2.trans (by decide)⟩

/-- C2: when the last attempt of a call of `post` received a response with a
status that is not expected, the call returns exactly the error `checkError`
gives for that response: for a first response whose mapped error is not a
`:badNonce` `AcmeError`, and for the response to the retry, whatever its
mapped error. -/
theorem post_returns_mapped_error {α : Type} (env : Env σ π κ)
    (unmarshal : String → α → α × Option String) (requestURL keyID : String) (privateKey : κ)
    (payload : π) (out : Option α) (expectedStatus : List Int) (w : World σ) :
    (∀ (resp : Response) (w2 : World σ),
      attemptResponse env requestURL keyID privateKey payload w = some (resp, w2) →
      resp.StatusCode ∉ expectedStatus →
      (∀ e : AcmeError, checkError env.unmarshalAcmeError resp expectedStatus = some (.acme e) →
        HasSuffix e.Type_ ":badNonce" = false) →
      (post env unmarshal requestURL keyID privateKey payload out expectedStatus w).1.2.2
          = checkError env.unmarshalAcmeError resp expectedStatus ∧
        (post env unmarshal requestURL keyID privateKey payload out expectedStatus w).1.2.2
          ≠ none) ∧
    (∀ (resp1 resp2 : Response) (w2 w3 : World σ) (e1 : AcmeError),
      attemptResponse env requestURL keyID privateKey payload w = some (resp1, w2) →
      checkError env.unmarshalAcmeError resp1 expectedStatus = some (.acme e1) →
      HasSuffix e1.Type_ ":badNonce" = true →
      attemptResponse env requestURL keyID privateKey payload w2 = some (resp2, w3) →
      resp2.StatusCode ∉ expectedStatus →
      (post env unmarshal requestURL keyID privateKey payload out expectedStatus w).1.2.2
          = checkError env.unmarshalAcmeError resp2 expectedStatus ∧
        (post env unmarshal requestURL keyID privateKey payload out expectedStatus w).1.2.2
          ≠ none) := by
  constructor
  · intro resp w2 ha hm hnot
    rcases hC : checkError env.unmarshalAcmeError resp expectedStatus with _ | err
    · exact (hm ((checkError_eq_none_iff _ _ _).mp hC)).elim
    · have hb : err.isBadNonce = false := by
        cases err with
        | errorString m => rfl
        | acme e => exact hnot e hC
      have hp : (postRaw env false requestURL keyID privateKey payload expectedStatus w).1.2.2
          = some err := by
        rw [postRaw_of_attempt_some env false requestURL keyID privateKey payload expectedStatus
          w w2 resp ha, hC]
        simp [hb]
      rw [post_error env unmarshal requestURL keyID privateKey payload out expectedStatus w err hp]
      simp
  · intro resp1 resp2 w2 w3 e1 ha1 hc1 hs1 ha2 hm2
    rcases hC : checkError env.unmarshalAcmeError resp2 expectedStatus with _ | err
    · exact (hm2 ((checkError_eq_none_iff _ _ _).mp hC)).elim
    · have hp : (postRaw env false requestURL keyID privateKey payload expectedStatus w).1.2.2
          = some err := by
        rw [postRaw_of_attempt_some env false requestURL keyID privateKey payload expectedStatus
          w w2 resp1 ha1, hc1]
        simp only [GoError.isBadNonce, hs1, Bool.false_eq_true, Bool.true_eq_false, or_self,
          if_false]
        rw [postRaw_of_attempt_some env true requestURL keyID privateKey payload expectedStatus
          w2 w3 resp2 ha2, hC]
        simp
      rw [post_error env unmarshal requestURL keyID privateKey payload out expectedStatus w err hp]
      simp

theorem post_returns_mapped_error_witness :
    (post staleEnv (fun _ (o : Unit) => (o, none)) "order" "kid" () () none [201]
        staleWorld).1.2.2
      = some (.acme { Status := 403, Type_ := "urn:ietf:params:acme:error:unauthorized",
                      Detail := "denied", Instance := "", SubProblems := [] }) :=
  ((post_returns_mapped_error staleEnv (fun _ (o : Unit) => (o, none)) "order" "kid" () () none
    [201] staleWorld).2 _ _ _ _ demoBadNonce rfl rfl (by decide) rfl (by decide)).1.trans rfl

/-- C3: `checkError` returns no error exactly when the status is one of the
expected ones; otherwise, for a status below 400 or from 600 on, a formatted
error that is not an `AcmeError` and does not depend on the body; otherwise a
formatted error when the body cannot be read or decoded, and the decoded
`AcmeError` itself when it can. -/
theorem checkError_cases (unmarshal : String → Except String AcmeError) (resp : Response)
    (expectedStatuses : List Int) :
    (checkError unmarshal resp expectedStatuses = none ↔ resp.StatusCode ∈ expectedStatuses) ∧
    (resp.StatusCode ∉ expectedStatuses → (resp.StatusCode < 400 ∨ 600 ≤ resp.StatusCode) →
      ∃ msg : String, ∀ body : ReadResult,
        checkError unmarshal { resp with Body := body } expectedStatuses
          = some (.errorString msg)) ∧
    (resp.StatusCode ∉ expectedStatuses → 400 ≤ resp.StatusCode → resp.StatusCode < 600 →
      (∀ msg : String, resp.Body = .err msg →
        ∃ m : String, checkError unmarshal resp expectedStatuses = some (.errorString m)) ∧
      (∀ body msg : String, resp.Body = .ok body → unmarshal body = .error msg →
        ∃ m : String, checkError unmarshal resp expectedStatuses = some (.errorString m)) ∧
      (∀ (body : String) (e : AcmeError), resp.Body = .ok body → unmarshal body = .ok e →
        checkError unmarshal resp expectedStatuses
          = some (.acme { Status := e.Status, Type_ := e.Type_, Detail := e.Detail,
                          Instance := e.Instance, SubProblems := e.SubProblems }))) := by
  have hfalse : resp.StatusCode ∉ expectedStatuses →
      (expectedStatuses.any fun statusCode => resp.StatusCode == statusCode) = false := by
    intro hm
    rw [Bool.eq_false_iff]
    intro h
    obtain ⟨x, hx, hxe⟩ := List.any_eq_true.mp h
    exact hm ((beq_iff_eq.mp hxe) ▸ hx)
  refine ⟨checkError_eq_none_iff unmarshal resp expectedStatuses, ?_, ?_⟩
  · intro hm hr
    have hr2 : (decide (resp.StatusCode < 400) || decide (resp.StatusCode ≥ 600)) = true := by
      simpa using hr
    exact ⟨_, fun body => by
      simp only [checkError, hfalse hm, hr2, Bool.false_eq_true, if_false, if_true]; rfl⟩
  · intro hm h4 h6
    have hr2 : (decide (resp.StatusCode < 400) || decide (resp.StatusCode ≥ 600)) = false := by
      simp only [Bool.or_eq_false_iff, decide_eq_false_iff_not]
      omega
    refine ⟨?_, ?_, ?_⟩
    · intro msg hb
      exact ⟨_, by simp only [checkError, hfalse hm, hr2, hb, Bool.false_eq_true, if_false]; rfl⟩
    · intro body msg hb hu
      exact ⟨_, by simp only [checkError, hfalse hm, hr2, hb, hu, Bool.false_eq_true, if_false]; rfl⟩
    · intro body e hb hu
      simp only [checkError, hfalse hm, hr2, hb, hu, Bool.false_eq_true, if_false]

theorem checkError_cases_witness :
    checkError (fun _ => .ok demoBadNonce)
      { StatusCode := 400, Status := "400 Bad Request", Header := [], Body := .ok "doc" } [200, 201]
      = some (.acme demoBadNonce) :=
  ((checkError_cases _ _ _).2.2 (by decide) (by decide) (by decide)).2.2 "doc" _ rfl rfl

/-- C4, as stated, fails: a URL with a line feed has no `<` and no `>`, yet the
pattern of `regLink` does not match the link, and `fetchLink` returns the empty
string instead of the URL. -/
theorem fetchLink_line_feed_not_found :
    wellFormedLinkAsStated ("a\nb", "x") = true ∧
    (linkResponse ["<a\nb>; rel=\"x\""]).headerValues "Link"
      = [String.mk (renderLinks [','] [("a\nb", "x")])] ∧
    fetchLink (some (linkResponse ["<a\nb>; rel=\"x\""])) "x" = "" ∧
    fetchLink (some (linkResponse ["<a\nb>; rel=\"x\""])) "x" ≠ "a\nb" := by
  decide

/-- C4, amended: when every value of the `Link` header is a list of links
`<URL>; rel="NAME"` separated by a comma and any number of spaces, with URLs
that are not empty and have no `<`, no `>` and no line feed, and names that are
not empty and have no double quote and no line feed, `fetchLink` returns the
URL of the first link, over the values in order and from left to right in each,
whose name is the wanted one (and the empty string when there is none). -/
theorem fetchLink_first_link (resp : Response) (wantedLink sep : String)
    (occurrences : List (List (String × String)))
    (hsep : ∃ n : Nat, sep.data = ',' :: List.replicate n ' ')
    (hheader : resp.headerValues "Link"
      = occurrences.map fun links => String.mk (renderLinks sep.data links))
    (hwf : ∀ links ∈ occurrences, links ≠ [] ∧ ∀ link ∈ links, wellFormedLink link = true) :
    fetchLink (some resp) wantedLink
      = (((occurrences.flatten).find? (fun link => link.2 == wantedLink)).map Prod.fst).getD "" := by
  have hs : ∀ c ∈ sep.data, c ≠ '<' := by
    obtain ⟨n, hn⟩ := hsep
    intro c hc
    rw [hn] at hc
    rcases List.mem_cons.mp hc with rfl | hc
    · decide
    · rw [List.eq_of_mem_replicate hc]
      decide
  have h := scanHeaders_links wantedLink sep.data hs occurrences (fun l hl => (hwf l hl).2)
  simp only [fetchLink, hheader, h]
  cases occurrences with
  | nil => rfl
  | cons o os => simp

theorem fetchLink_first_link_witness :
    fetchLink (some (linkResponse
        ["<https://ca/terms>; rel=\"terms-of-service\", <https://ca/a>; rel=\"up\"",
         "<https://ca/b>; rel=\"up\""])) "up"
      = "https://ca/a" :=
  (fetchLink_first_link _ "up" ", "
    [[("https://ca/terms", "terms-of-service"), ("https://ca/a", "up")], [("https://ca/b", "up")]]
    ⟨1, rfl⟩ (by decide) (by decide)).trans (by decide)

/-- C5: `fetchLink` returns the empty string for a nil response, for a response
without `Link` header, and for a response none of whose `Link` values contains
a link with the wanted relation name. It is a function of the response and the
name alone, so a repeated call returns the same. -/
theorem fetchLink_absent (wantedLink : String) :
    fetchLink none wantedLink = "" ∧
    (∀ resp : Response, resp.headerValues "Link" = [] → fetchLink (some resp) wantedLink = "") ∧
    (∀ resp : Response,
      (∀ l ∈ resp.headerValues "Link", ¬ ContainsLink l.data wantedLink.data) →
      fetchLink (some resp) wantedLink = "") := by
  refine ⟨rfl, ?_, ?_⟩
  · intro resp h
    simp [fetchLink, h]
  · intro resp h
    simp only [fetchLink]
    split_ifs
    · rfl
    · exact scanHeaders_absent wantedLink _ h

theorem fetchLink_absent_witness :
    fetchLink (some (linkResponse ["<a>; rel=\"up\""])) "next" = "" :=
  (fetchLink_absent "next").2.2 (linkResponse ["<a>; rel=\"up\""]) (by
    intro l hl
    have hl1 : l = "<a>; rel=\"up\"" := by
      simpa [linkResponse, Response.headerValues, List.lookup] using hl
    subst hl1
    rintro ⟨url, pre, ws, post, hu, _, h⟩
    have hlen := congrArg List.length h
    have hpos : 0 < url.length := List.length_pos.mpr hu
    simp at hlen
    omega)

/-- C6: after a successful fetch the challenges are the decoded ones, in the
same number and order, each with its key authorization filled in as
`Token + "." + Thumbprint` when the decoded one is empty and otherwise left as
the server sent it; the other fields are unchanged. -/
theorem FetchAuthorization_challenges (env : Env σ π κ)
    (unmarshal : String → AcmeAuthorization → AcmeAuthorization × Option String)
    (account : AcmeAccount) (authURL : String) (w w1 : World σ) (resp : Option Response)
    (d : AcmeAuthorization)
    (hget : get env unmarshal authURL (some AcmeAuthorization.zero) [200] w
      = ((resp, some d, none), w1)) :
    (FetchAuthorization env unmarshal account authURL w).1.2 = none ∧
    (FetchAuthorization env unmarshal account authURL w).1.1.Challenges.length
      = d.Challenges.length ∧
    ∀ (i : Nat) (c : AcmeChallenge), d.Challenges[i]? = some c →
      (FetchAuthorization env unmarshal account authURL w).1.1.Challenges[i]?
        = some { Type_ := c.Type_, Url := c.Url, Status := c.Status, Token := c.Token,
                 KeyAuthorization :=
                   if c.KeyAuthorization = "" then c.Token ++ "." ++ account.Thumbprint
                   else c.KeyAuthorization } := by
  have hr : (FetchAuthorization env unmarshal account authURL w).1.1.Challenges
      = d.Challenges.map (fillKeyAuthorization account) := by
    simp [FetchAuthorization, hget, foldl_indexChallenge_challenges,
      fillKeyAuthorizations_eq_map]
  refine ⟨by simp [FetchAuthorization, hget], by simp [hr], ?_⟩
  intro i c hc
  rw [hr, List.getElem?_map, hc]
  rfl

theorem FetchAuthorization_challenges_witness :
    (FetchAuthorization demoEnv (fun _ _ => (demoAuthorization, none))
        { Url := "acct", Thumbprint := "thumb" } "auth" demoWorld).1.1.Challenges[0]?
      = some { Type_ := "http-01", Url := "u1", Status := "pending", Token := "t1",
               KeyAuthorization := "t1.thumb" } :=
  (FetchAuthorization_challenges demoEnv (fun _ _ => (demoAuthorization, none))
    { Url := "acct", Thumbprint := "thumb" } "auth" demoWorld
    { demoWorld with trace := [.send _ (.ok _), .push "n1"] } _ demoAuthorization rfl).2.2 0 _ rfl

/-- C7: the two indexes of a returned authorization are determined by its
challenge list alone: `ChallengeTypes` lists the challenges' types in order,
and `ChallengeMap` has exactly those types as keys, each bound to the last
challenge of that type in the list. -/
theorem FetchAuthorization_indexes (env : Env σ π κ)
    (unmarshal : String → AcmeAuthorization → AcmeAuthorization × Option String)
    (account : AcmeAccount) (authURL : String) (w : World σ)
    (hok : (FetchAuthorization env unmarshal account authURL w).1.2 = none) :
    (FetchAuthorization env unmarshal account authURL w).1.1.ChallengeTypes
      = (FetchAuthorization env unmarshal account authURL w).1.1.Challenges.map
          (fun c => c.Type_) ∧
    (FetchAuthorization env unmarshal account authURL w).1.1.ChallengeMap.keys.Nodup ∧
    (∀ t : String,
      t ∈ (FetchAuthorization env unmarshal account authURL w).1.1.ChallengeMap.keys
        ↔ t ∈ (FetchAuthorization env unmarshal account authURL w).1.1.Challenges.map
            (fun c => c.Type_)) ∧
    (∀ t : String,
      (FetchAuthorization env unmarshal account authURL w).1.1.ChallengeMap.get t
        = ((FetchAuthorization env unmarshal account authURL w).1.1.Challenges.filter
            (fun c => c.Type_ == t)).getLast?) := by
  rcases hg : get env unmarshal authURL (some AcmeAuthorization.zero) [200] w with
    ⟨⟨resp, out, _ | e⟩, w1⟩
  · simp only [FetchAuthorization, hg, foldl_indexChallenge_challenges,
      foldl_indexChallenge_types, foldl_indexChallenge_keys, foldl_indexChallenge_get,
      List.nil_append]
    refine ⟨trivial, ?_, ?_, ?_⟩
    · exact foldl_indexChallenge_nodup _ _ (by simp [GoMap.keys])
    · intro t; simp [GoMap.keys]
    · intro t; simp [GoMap.get]
  · simp [FetchAuthorization, hg] at hok

theorem FetchAuthorization_indexes_witness :
    (FetchAuthorization demoEnv (fun _ _ => (demoAuthorization, none))
        { Url := "acct", Thumbprint := "thumb" } "auth" demoWorld).1.1.ChallengeMap.get "http-01"
      = some { Type_ := "http-01", Url := "u3", Status := "pending", Token := "t3",
               KeyAuthorization := "t3.thumb" } :=
  ((FetchAuthorization_indexes demoEnv (fun _ _ => (demoAuthorization, none))
    { Url := "acct", Thumbprint := "thumb" } "auth" demoWorld rfl).2.2.2 "http-01").trans rfl

/-- C8: when the transport returns a response, `do` hands the value of its
`Replay-Nonce` header to the nonce supply exactly once, right after the
exchange and whatever the status; when the transport fails it deposits
nothing. `getRaw` leaves the world as `do` left it for every list of expected
statuses, so also when the status check then fails, and over a whole call of
`post` the deposits are exactly the header values of the responses received. -/
theorem do_deposits_nonce (α : Type) (env : Env σ π κ) (w : World σ) :
    (∀ (req : Request) (resp : Response) (s : σ),
      env.Do (req.setHeader "User-Agent" userAgentString) w.ext = (.ok resp, s) →
      clientDo env req w
        = (.ok resp,
            { ext := env.push (resp.headerGet "Replay-Nonce") s,
              newNonceURL := w.newNonceURL,
              trace := w.trace ++ [.send (req.setHeader "User-Agent" userAgentString) (.ok resp),
                .push (resp.headerGet "Replay-Nonce")] })) ∧
    (∀ (req : Request) (resp : Option Response) (msg : String) (s : σ),
      env.Do (req.setHeader "User-Agent" userAgentString) w.ext = (.fail resp msg, s) →
      clientDo env req w
        = (.fail resp msg,
            { ext := s, newNonceURL := w.newNonceURL,
              trace := w.trace
                ++ [.send (req.setHeader "User-Agent" userAgentString) (.fail resp msg)] })) ∧
    (∀ (url : String) (expectedStatus : List Int) (req : Request),
      NewRequest env "GET" url none = .ok req →
      (getRaw env url expectedStatus w).2 = (clientDo env req w).2) ∧
    (∀ (unmarshal : String → α → α × Option String) (requestURL keyID : String) (privateKey : κ)
      (payload : π) (out : Option α) (expectedStatus : List Int),
      ∃ t : List Event,
        (post env unmarshal requestURL keyID privateKey payload out expectedStatus w).2.trace
          = w.trace ++ t ∧ deposited t = received t) := by
  refine ⟨?_, ?_, ?_, ?_⟩
  · intro req resp s h
    simp only [clientDo, h]
  · intro req resp msg s h
    simp only [clientDo, h]
  · intro url expectedStatus req h
    simp only [getRaw, h]
    rcases clientDo env req w with ⟨resp | ⟨resp, msg⟩, w1⟩
    · simp only
      cases checkError env.unmarshalAcmeError resp expectedStatus with
      | some err => rfl
      | none => cases resp.Body <;> rfl
    · rfl
  · intro unmarshal requestURL keyID privateKey payload out expectedStatus
    obtain ⟨t, ht, facts, _⟩ :=
      postRaw_first_trace env requestURL keyID privateKey payload expectedStatus w
    exact ⟨t, by rw [post_world]; exact ht, facts.deposits⟩

theorem do_deposits_nonce_witness :
    (clientDo demoEnv { Method := "GET", URL := "dir", Body := none, Header := [] } demoWorld).2.trace
      = [.send { Method := "GET", URL := "dir", Body := none,
                 Header := [("User-Agent", userAgentString)] }
          (.ok { StatusCode := 200, Status := "200 OK", Header := [("Replay-Nonce", ["n1"])],
                 Body := .ok "doc" }),
         .push "n1"] :=
  (congrArg (fun r => r.2.trace)
    ((do_deposits_nonce Unit demoEnv demoWorld).1
      { Method := "GET", URL := "dir", Body := none, Header := [] } _ () rfl)).trans rfl

/-- C9: `getPollingDurations` returns the configured interval and timeout, each
replaced on its own by its default (500 ms, 30 s) exactly when it is 0. -/
theorem getPollingDurations_defaults (c : AcmeClient) :
    c.getPollingDurations =
      (if c.PollInterval = 0 then 500000000 else c.PollInterval,
       if c.PollTimeout = 0 then 30000000000 else c.PollTimeout) := by
  simp [AcmeClient.getPollingDurations, Millisecond, Second]

/-- C10, as stated, fails: with an option that fails, `NewClient` sends no GET
at all. -/
theorem NewClient_failing_option_sends_nothing :
    ¬ ((NewClient demoEnv demoUnmarshalDirectory "ca/dir" [failingOption] ()).2.trace.countP
        Event.isSend = 1) := by
  decide

/-- C10, amended: `NewClient` sends at most one request, an unsigned GET of the
directory URL, and sends it exactly when every option succeeds and the request
can be built; it succeeds only on a response with status 200, and then
`Directory.Url` is the queried URL and the mint URL of the nonce supply is the
directory's `NewNonce`; when the response has a non-empty body that decodes to
`d`, the directory is `d` with `Url` overridden, and with an empty body it is
the zero directory with `Url` set; when an option fails an error is returned
and nothing is sent, and when the GET fails its error is returned. -/
theorem NewClient_bootstrap (env : Env σ π κ)
    (unmarshal : String → AcmeDirectory → AcmeDirectory × Option String)
    (directoryURL : String) (options : List (AcmeOptionFunc σ)) (s : σ) :
    (∀ e ∈ (NewClient env unmarshal directoryURL options s).2.trace, e.isSend = true →
      ∃ result : DoResult, e = .send (getRequest directoryURL) result) ∧
    (NewClient env unmarshal directoryURL options s).2.trace.countP Event.isSend ≤ 1 ∧
    ((NewClient env unmarshal directoryURL options s).2.trace.countP Event.isSend = 1 ↔
      (applyOptions AcmeClient.zero options s).1 = none ∧
        env.requestError "GET" directoryURL = none) ∧
    ((NewClient env unmarshal directoryURL options s).1.2 = none →
      (NewClient env unmarshal directoryURL options s).1.1.Directory.Url = directoryURL ∧
      (NewClient env unmarshal directoryURL options s).2.newNonceURL
        = (NewClient env unmarshal directoryURL options s).1.1.Directory.NewNonce ∧
      ∃ resp : Response, resp.StatusCode = 200 ∧
        (NewClient env unmarshal directoryURL options s).2.trace
          = [.send (getRequest directoryURL) (.ok resp), .push (resp.headerGet "Replay-Nonce")]) ∧
    (∀ (s1 s2 : σ) (resp : Response) (body : String) (d : AcmeDirectory),
      applyOptions AcmeClient.zero options s = (none, s1) →
      env.requestError "GET" directoryURL = none →
      env.Do (getRequest directoryURL) s1 = (.ok resp, s2) →
      resp.StatusCode = 200 → resp.Body = .ok body → body.length > 0 →
      unmarshal body AcmeClient.zero.Directory = (d, none) →
      (NewClient env unmarshal directoryURL options s).1
        = ({ Directory := { d with Url := directoryURL }, PollInterval := 0, PollTimeout := 0 },
            none) ∧
      (NewClient env unmarshal directoryURL options s).2.newNonceURL = d.NewNonce) ∧
    (∀ (msg : String) (s1 : σ), applyOptions AcmeClient.zero options s = (some msg, s1) →
      (NewClient env unmarshal directoryURL options s).1.2
        = some (.errorString ("acme: error setting option: " ++ msg)) ∧
      (NewClient env unmarshal directoryURL options s).2.trace = []) ∧
    (∀ (s1 s2 : σ) (resp : Response),
      applyOptions AcmeClient.zero options s = (none, s1) →
      env.requestError "GET" directoryURL = none →
      env.Do (getRequest directoryURL) s1 = (.ok resp, s2) →
      resp.StatusCode = 200 → resp.Body = .ok "" →
      (NewClient env unmarshal directoryURL options s).1
        = ({ Directory := { AcmeClient.zero.Directory with Url := directoryURL },
             PollInterval := 0, PollTimeout := 0 }, none)) ∧
    (∀ (s1 : σ) (err : GoError), applyOptions AcmeClient.zero options s = (none, s1) →
      (get env unmarshal directoryURL (some AcmeClient.zero.Directory) [200]
        { ext := s1, newNonceURL := "", trace := [] }).1.2.2 = some err →
      (NewClient env unmarshal directoryURL options s).1.2 = some err) := by
  have hreq : ({ Method := "GET", URL := directoryURL, Body := none, Header := [] } :
      Request).setHeader "User-Agent" userAgentString = getRequest directoryURL := rfl
  have h5 : ∀ (s1 s2 : σ) (resp : Response) (body : String) (d : AcmeDirectory),
      applyOptions AcmeClient.zero options s = (none, s1) →
      env.requestError "GET" directoryURL = none →
      env.Do (getRequest directoryURL) s1 = (.ok resp, s2) →
      resp.StatusCode = 200 → resp.Body = .ok body → body.length > 0 →
      unmarshal body AcmeClient.zero.Directory = (d, none) →
      (NewClient env unmarshal directoryURL options s).1
        = ({ Directory := { d with Url := directoryURL }, PollInterval := 0, PollTimeout := 0 },
            none) ∧
      (NewClient env unmarshal directoryURL options s).2.newNonceURL = d.NewNonce := by
    intro s1 s2 resp body d hO hR hD h200 hB hl hU
    have hC : checkError env.unmarshalAcmeError resp [200] = none :=
      (checkError_eq_none_iff _ _ _).mpr (by simp [h200])
    simp [NewClient, hO, get, getRaw, NewRequest, hR, clientDo, hreq, hD, hC, hB, hl, hU]
    exact ⟨rfl, rfl⟩
  have h6 : ∀ (msg : String) (s1 : σ), applyOptions AcmeClient.zero options s = (some msg, s1) →
      (NewClient env unmarshal directoryURL options s).1.2
        = some (.errorString ("acme: error setting option: " ++ msg)) ∧
      (NewClient env unmarshal directoryURL options s).2.trace = [] := by
    intro msg s1 hO
    simp [NewClient, hO]
  have h7 : ∀ (s1 s2 : σ) (resp : Response),
      applyOptions AcmeClient.zero options s = (none, s1) →
      env.requestError "GET" directoryURL = none →
      env.Do (getRequest directoryURL) s1 = (.ok resp, s2) →
      resp.StatusCode = 200 → resp.Body = .ok "" →
      (NewClient env unmarshal directoryURL options s).1
        = ({ Directory := { AcmeClient.zero.Directory with Url := directoryURL },
             PollInterval := 0, PollTimeout := 0 }, none) := by
    intro s1 s2 resp hO hR hD h200 hB
    have hC : checkError env.unmarshalAcmeError resp [200] = none :=
      (checkError_eq_none_iff _ _ _).mpr (by simp [h200])
    simp [NewClient, hO, get, getRaw, NewRequest, hR, clientDo, hreq, hD, hC, hB]
    exact ⟨rfl, rfl⟩
  have h8 : ∀ (s1 : σ) (err : GoError), applyOptions AcmeClient.zero options s = (none, s1) →
      (get env unmarshal directoryURL (some AcmeClient.zero.Directory) [200]
        { ext := s1, newNonceURL := "", trace := [] }).1.2.2 = some err →
      (NewClient env unmarshal directoryURL options s).1.2 = some err := by
    intro s1 err hO hG
    rcases hg : get env unmarshal directoryURL (some AcmeClient.zero.Directory) [200]
      { ext := s1, newNonceURL := "", trace := [] } with ⟨⟨resp, out, e⟩, w1⟩
    rw [hg] at hG
    simp only at hG
    subst hG
    simp [NewClient, hO, hg]
  refine ⟨?_, ?_, ?_, ?_, h5, h6, h7, h8⟩
  all_goals
    rcases hO : applyOptions AcmeClient.zero options s with ⟨_ | msg, s1⟩
    · rcases hR : env.requestError "GET" directoryURL with _ | msg
      · rcases hD : env.Do (getRequest directoryURL) s1 with ⟨resp | ⟨resp, msg⟩, s2⟩
        · rcases hC : checkError env.unmarshalAcmeError resp [200] with _ | err
          · have h200 : resp.StatusCode = 200 := by
              simpa using (checkError_eq_none_iff _ _ _).mp hC
            rcases hB : resp.Body with body | msg
            · by_cases hl : 0 < body.length
              · rcases hU : unmarshal body AcmeClient.zero.Directory with ⟨d, _ | msg⟩ <;>
                  simp [NewClient, hO, get, getRaw, NewRequest, hR, clientDo, hreq, hD, hC, hB,
                    hl, hU, Event.isSend, h200] <;>
                  try exact ⟨resp, h200, rfl, rfl⟩
              · simp [NewClient, hO, get, getRaw, NewRequest, hR, clientDo, hreq, hD, hC, hB,
                  hl, Event.isSend, h200] <;>
                  try exact ⟨resp, h200, rfl, rfl⟩
            · simp [NewClient, hO, get, getRaw, NewRequest, hR, clientDo, hreq, hD, hC, hB,
                Event.isSend, h200]
          · simp [NewClient, hO, get, getRaw, NewRequest, hR, clientDo, hreq, hD, hC,
              Event.isSend]
        · simp [NewClient, hO, get, getRaw, NewRequest, hR, clientDo, hreq, hD, Event.isSend]
      · simp [NewClient, hO, get, getRaw, NewRequest, hR, Event.isSend]
    · simp [NewClient, hO, Event.isSend]

theorem NewClient_bootstrap_witness :
    (NewClient demoEnv demoUnmarshalDirectory "ca/dir" [] ()).1
      = ({ Directory := { NewNonce := "ca/nonce", NewAccount := "ca/acct", NewOrder := "ca/order",
                          RevokeCert := "", KeyChange := "", Url := "ca/dir" },
           PollInterval := 0, PollTimeout := 0 }, none) :=
  ((NewClient_bootstrap demoEnv demoUnmarshalDirectory "ca/dir" [] ()).2.2.2.2.1 () () _ "doc" _
    rfl rfl rfl rfl rfl (by decide) rfl).1

end Acme
